import Mathlib

/-!
Verification of the pxobj object-service core: a shallow embedding of the
metadata store (`internal/objectd/store.go`), the SigV4 verifier
(`internal/s3/sigv4.go`), the replication quorum logic
(`internal/cluster/cluster.go`) and the S3 HTTP handler
(`internal/s3/handler.go`), together with theorems about the documented
behaviour of these components.

Go strings are byte strings; all comparisons in the source are byte-wise.
On valid UTF-8, byte-wise lexicographic order coincides with code-point
lexicographic order, so strings are modelled as Lean `String` and compared
code-point-wise by the executable comparators below.
-/

namespace Pxobj

/-- Strict byte-wise (= code-point-wise) lexicographic order on char lists,
modelling Go's string `<`. -/
def listLtCh : List Char → List Char → Bool
  | [], [] => false
  | [], _ :: _ => true
  | _ :: _, [] => false
  | a :: as, b :: bs =>
    if a < b then true
    else if b < a then false
    else listLtCh as bs

/-- Go string `<` (byte-wise lexicographic). -/
def strLt (a b : String) : Bool := listLtCh a.data b.data

/-- Go string `<=` (byte-wise lexicographic). -/
def strLe (a b : String) : Bool := !(strLt b a)

/-- Prefix test on char lists. -/
def isPrefixCh : List Char → List Char → Bool
  | [], _ => true
  | _ :: _, [] => false
  | a :: as, b :: bs => a = b && isPrefixCh as bs

/-- Go `strings.HasPrefix s pre`. -/
def strStartsWith (s pre : String) : Bool := isPrefixCh pre.data s.data

/-- Go `strings.HasSuffix s suf`. -/
def strEndsWith (s suf : String) : Bool := isPrefixCh suf.data.reverse s.data.reverse

/-- Drop the first `n` characters (used for `strings.TrimPrefix` once the
prefix, which is ASCII at every use site, has been checked). -/
def strDrop (s : String) (n : Nat) : String := String.mk (s.data.drop n)

/-- Split a char list at every occurrence of `sep` (Go `strings.Split` with a
one-byte separator): `"a,,b"` gives `["a", "", "b"]`, `""` gives `[""]`. -/
def splitCh (sep : Char) : List Char → List (List Char)
  | [] => [[]]
  | c :: t =>
    let r := splitCh sep t
    if c = sep then [] :: r
    else
      match r with
      | h :: t' => (c :: h) :: t'
      | [] => [[c]]

/-- Go `strings.Split s sep` for a one-byte separator. -/
def strSplit (sep : Char) (s : String) : List String :=
  (splitCh sep s.data).map String.mk

/-- Go `strings.Join l sep`. -/
def joinSep (sep : String) : List String → String
  | [] => ""
  | [x] => x
  | x :: xs => x ++ sep ++ joinSep sep xs

/-- Concatenation of a list of strings (a `strings.Builder` that only ever
appends). -/
def concatAll (l : List String) : String := l.foldl (· ++ ·) ""

/-- ASCII whitespace recognised by Go's `unicode.IsSpace` on the ASCII range
(header values in the canonical request are ASCII). -/
def isSpaceCh (c : Char) : Bool :=
  c = ' ' || c = '\t' || c = '\n' || c = '\r' || c.toNat = 11 || c.toNat = 12

/-- Go `strings.TrimSpace` (ASCII model). -/
def strTrim (s : String) : String :=
  String.mk (((s.data.dropWhile isSpaceCh).reverse.dropWhile isSpaceCh).reverse)

/-- Split at every char satisfying `p` (no run merging). -/
def splitPredCh (p : Char → Bool) : List Char → List (List Char)
  | [] => [[]]
  | c :: t =>
    let r := splitPredCh p t
    if p c then [] :: r
    else
      match r with
      | h :: t' => (c :: h) :: t'
      | [] => [[c]]

/-- Go `strings.Fields`: whitespace-separated words, empty runs dropped. -/
def goFields (s : String) : List String :=
  ((splitPredCh isSpaceCh s.data).filter (fun w => !w.isEmpty)).map String.mk

/-- ASCII lower-casing of a char (`strings.ToLower` on the ASCII range). -/
def asciiLower (c : Char) : Char :=
  if 65 ≤ c.toNat && c.toNat ≤ 90 then Char.ofNat (c.toNat + 32) else c

/-- ASCII upper-casing of a char. -/
def asciiUpper (c : Char) : Char :=
  if 97 ≤ c.toNat && c.toNat ≤ 122 then Char.ofNat (c.toNat - 32) else c

/-- Go `strings.ToLower` (ASCII model; header names are ASCII tokens). -/
def asciiLowerStr (s : String) : String := String.mk (s.data.map asciiLower)

/-- UTF-8 encoding of one code point. -/
def utf8Bytes (c : Char) : List Nat :=
  let n := c.toNat
  if n < 128 then [n]
  else if n < 2048 then [192 + n / 64, 128 + n % 64]
  else if n < 65536 then [224 + n / 4096, 128 + n / 64 % 64, 128 + n % 64]
  else [240 + n / 262144, 128 + n / 4096 % 64, 128 + n / 64 % 64, 128 + n % 64]

/-- The bytes of a Go string. -/
def strBytes (s : String) : List Nat := s.data.flatMap utf8Bytes

/-- Lower-case hex digit. -/
def hexDigit (n : Nat) : Char :=
  if n < 10 then Char.ofNat (48 + n) else Char.ofNat (87 + n)

/-- Go `hex.EncodeToString`: lower-case hex of a byte list. -/
def hexEncode (bs : List Nat) : String :=
  String.mk (bs.flatMap (fun b => [hexDigit (b / 16 % 16), hexDigit (b % 16)]))

/-- Upper-case hex digit (percent-encoding uses upper case). -/
def hexDigitUp (n : Nat) : Char :=
  if n < 10 then Char.ofNat (48 + n) else Char.ofNat (55 + n)

/-- Byte-wise `<=` on strings as a relation (the order used by `sort.Strings`). -/
def sLE (a b : String) : Prop := strLe a b = true

/-- Byte-wise `<` on strings as a relation. -/
def sLT (a b : String) : Prop := strLt a b = true

instance : DecidableRel sLE := fun a b => inferInstanceAs (Decidable (strLe a b = true))

instance : DecidableRel sLT := fun a b => inferInstanceAs (Decidable (strLt a b = true))

/-- The ascending sort used by the store (`sort.Strings`). -/
def sortStrings (l : List String) : List String := List.insertionSort sLE l

/-- Association-list lookup, modelling a Go `map[string]T` read. -/
def lookupA {α : Type} : List (String × α) → String → Option α
  | [], _ => none
  | (k', v) :: t, k => if k' = k then some v else lookupA t k

/-- Association-list write, modelling a Go `map[string]T` assignment. -/
def insertA {α : Type} : List (String × α) → String → α → List (String × α)
  | [], k, v => [(k, v)]
  | (k', v') :: t, k, v => if k' = k then (k, v) :: t else (k', v') :: insertA t k v

/-- Association-list delete, modelling Go `delete(m, k)`. -/
def eraseA {α : Type} (m : List (String × α)) (k : String) : List (String × α) :=
  m.filter (fun e => decide (e.1 ≠ k))

/-- Number of entries under a key (Go maps always have zero or one). -/
def countKey {α : Type} (m : List (String × α)) (k : String) : Nat :=
  (m.filter (fun e => decide (e.1 = k))).length

/-- Well-formedness carried by every Go map: keys are distinct. -/
def nodupKeys {α : Type} (m : List (String × α)) : Prop := (m.map Prod.fst).Nodup

/-- The external hash primitives (`crypto/sha256`, `crypto/hmac`), kept
abstract: byte lists in, byte list out. -/
structure Crypto where
  sha256 : List Nat → List Nat
  hmacSHA256 : List Nat → List Nat → List Nat

structure objectRecord where
  size : Nat
  etag : String
  modTime : String
  path : String
deriving DecidableEq

structure accessRecord where
  secretKey : String
  readOnly : Bool
deriving DecidableEq

structure bucketState where
  createdAt : String
  objects : List (String × objectRecord)
  access : List (String × accessRecord)
deriving DecidableEq

structure metaState where
  buckets : List (String × bucketState)
deriving DecidableEq

/-- The store: in-memory metadata plus the content files on disk
(`objects/<bucket>/<id>` ↦ bytes). -/
structure Store where
  state : metaState
  files : List (String × List Nat)
deriving DecidableEq

structure ObjectMeta where
  bucket : String
  key : String
  size : Nat
  etag : String
  modTime : String
  path : String
deriving DecidableEq

structure AccessKey where
  accessKey : String
  secretKey : String
  bucket : String
  readOnly : Bool
deriving DecidableEq

inductive StoreErr where
  | notFound
  | invalidBucketName
  | emptyKey
  | bucketNotEmpty
  | copyErr
  | closeErr
  | persistErr
deriving DecidableEq

/-- Allowed bucket-name characters: `[a-z0-9.-]`. -/
def isBucketChar (c : Char) : Bool :=
  (97 ≤ c.toNat && c.toNat ≤ 122) || (48 ≤ c.toNat && c.toNat ≤ 57) || c = '-' || c = '.'

/-- Model of `validBucket` from `store.go`: byte length in [3,63], no leading or
trailing `-`, only `[a-z0-9.-]`. -/
def validBucket (name : String) : Bool :=
  if (strBytes name).length < 3 || 63 < (strBytes name).length then false
  else if strStartsWith name "-" || strEndsWith name "-" then false
  else name.data.all isBucketChar

/-- The content-file path `filepath.Join(dataDir, "objects", bucket, id)`,
relative to the data directory. -/
def objPath (bucket id : String) : String := "objects/" ++ bucket ++ "/" ++ id

/-- Model of `Store.CreateBucket`: validate the name, return nil if the bucket already
exists, otherwise insert a fresh bucket state and persist. -/
def createBucket (s : Store) (name now : String) (persistOk : Bool) :
    Except StoreErr Unit × Store :=
  if validBucket name = false then (.error .invalidBucketName, s)
  else
    match lookupA s.state.buckets name with
    | some _ => (.ok (), s)
    | none =>
      let s' : Store := { s with state := ⟨insertA s.state.buckets name ⟨now, [], []⟩⟩ }
      if persistOk then (.ok (), s') else (.error .persistErr, s')

/-- Model of `Store.DeleteBucket`: missing bucket is `ErrNotFound`; a bucket with
objects is refused; otherwise remove and persist. -/
def deleteBucket (s : Store) (name : String) (persistOk : Bool) :
    Except StoreErr Unit × Store :=
  match lookupA s.state.buckets name with
  | none => (.error .notFound, s)
  | some b =>
    if 0 < b.objects.length then (.error .bucketNotEmpty, s)
    else
      let s' : Store := { s with state := ⟨eraseA s.state.buckets name⟩ }
      if persistOk then (.ok (), s') else (.error .persistErr, s')

/-- The byte stream handed to `PutObject`: either it copies completely, or
`io.Copy` fails after writing a part, or the final `Close` fails. -/
inductive Body where
  | complete (v : List Nat)
  | copyFail (written : List Nat)
  | closeFail (v : List Nat)

/-- File-system events emitted by `PutObject`, in program order. -/
inductive FsEvent where
  | created (path : String)
  | removed (path : String)
  | persisted
deriving DecidableEq

structure PutResult where
  res : Except StoreErr ObjectMeta
  store : Store
  events : List FsEvent

/-- Model of `Store.PutObject`, with the file-system effects in program order:
create the content file, stream the body through the hasher, on copy/close
error unlink the partial file and fail; otherwise unlink a previous content
file at a different path, swap the object record, then persist.  On persist
failure the record swap has already happened in memory and the error is
returned. -/
def putObject (C : Crypto) (s : Store) (bucket key : String) (body : Body)
    (id now : String) (persistOk : Bool) : PutResult :=
  match lookupA s.state.buckets bucket with
  | none => ⟨.error .notFound, s, []⟩
  | some b =>
    if key = "" then ⟨.error .emptyKey, s, []⟩
    else
      let path := objPath bucket id
      match body with
      | .copyFail written =>
        ⟨.error .copyErr, { s with files := eraseA (insertA s.files path written) path },
          [.created path, .removed path]⟩
      | .closeFail v =>
        ⟨.error .closeErr, { s with files := eraseA (insertA s.files path v) path },
          [.created path, .removed path]⟩
      | .complete v =>
        let files1 := insertA s.files path v
        let etag := hexEncode (C.sha256 v)
        let prevStep : List (String × List Nat) × List FsEvent :=
          match lookupA b.objects key with
          | some prev =>
            if prev.path = path then (files1, [])
            else (eraseA files1 prev.path, [.removed prev.path])
          | none => (files1, [])
        let b' := { b with objects := insertA b.objects key ⟨v.length, etag, now, path⟩ }
        let s' : Store := ⟨⟨insertA s.state.buckets bucket b'⟩, prevStep.1⟩
        if persistOk then
          ⟨.ok ⟨bucket, key, v.length, etag, now, path⟩, s',
            [.created path] ++ prevStep.2 ++ [.persisted]⟩
        else
          ⟨.error .persistErr, s', [.created path] ++ prevStep.2⟩

/-- Model of `Store.GetObjectMeta`. -/
def getObjectMeta (s : Store) (bucket key : String) : Except StoreErr ObjectMeta :=
  match lookupA s.state.buckets bucket with
  | none => .error .notFound
  | some b =>
    match lookupA b.objects key with
    | none => .error .notFound
    | some r => .ok ⟨bucket, key, r.size, r.etag, r.modTime, r.path⟩

/-- Model of `Store.OpenObject`: the metadata plus the content bytes; a missing
content file surfaces as `ErrNotFound`. -/
def openObject (s : Store) (bucket key : String) :
    Except StoreErr (ObjectMeta × List Nat) :=
  match getObjectMeta s bucket key with
  | .error e => .error e
  | .ok m =>
    match lookupA s.files m.path with
    | none => .error .notFound
    | some v => .ok (m, v)

/-- Model of `Store.DeleteObject`: missing bucket is `ErrNotFound`, missing key is a
no-op success; otherwise drop the record, persist, then unlink the content. -/
def deleteObject (s : Store) (bucket key : String) (persistOk : Bool) :
    Except StoreErr Unit × Store :=
  match lookupA s.state.buckets bucket with
  | none => (.error .notFound, s)
  | some b =>
    match lookupA b.objects key with
    | none => (.ok (), s)
    | some r =>
      let b' := { b with objects := eraseA b.objects key }
      let s' : Store := { s with state := ⟨insertA s.state.buckets bucket b'⟩ }
      if persistOk then (.ok (), { s' with files := eraseA s'.files r.path })
      else (.error .persistErr, s')

/-- Model of `Store.putAccessLocked`. -/
def putAccessLocked (s : Store) (a : AccessKey) (persistOk : Bool) :
    Except StoreErr Unit × Store :=
  match lookupA s.state.buckets a.bucket with
  | none => (.error .notFound, s)
  | some b =>
    let b' := { b with access := insertA b.access a.accessKey ⟨a.secretKey, a.readOnly⟩ }
    let s' : Store := { s with state := ⟨insertA s.state.buckets a.bucket b'⟩ }
    if persistOk then (.ok (), s') else (.error .persistErr, s')

/-- Model of `Store.PutAccess`. -/
def putAccess (s : Store) (a : AccessKey) (persistOk : Bool) :
    Except StoreErr Unit × Store :=
  putAccessLocked s a persistOk

/-- Scan of all buckets for an access key, as in `Store.LookupAccessKey`. -/
def findAccess : List (String × bucketState) → String → Option AccessKey
  | [], _ => none
  | (name, b) :: t, ak =>
    match lookupA b.access ak with
    | some r => some ⟨ak, r.secretKey, name, r.readOnly⟩
    | none => findAccess t ak

/-- Model of `Store.LookupAccessKey`. -/
def lookupAccessKey (s : Store) (ak : String) : Except StoreErr AccessKey :=
  match findAccess s.state.buckets ak with
  | none => .error .notFound
  | some a => .ok a

/-- The clamp applied by `Store.ListObjectsV2` to the page size:
`if maxKeys <= 0 || maxKeys > 1000 { maxKeys = 1000 }`. -/
def effectiveMaxKeys (maxKeys : Int) : Nat :=
  if maxKeys ≤ 0 ∨ 1000 < maxKeys then 1000 else maxKeys.toNat

/-- The continuation-token loop of `ListObjectsV2`:
`for i, k := range keys { if k <= token { start = i + 1 } }`. -/
def startIdxAux (token : String) : Nat → Nat → List String → Nat
  | _, st, [] => st
  | i, st, k :: rest => startIdxAux token (i + 1) (if strLe k token then i + 1 else st) rest

def startIdx (keys : List String) (token : String) : Nat := startIdxAux token 0 0 keys

/-- The object record rendered as `ObjectMeta` (`b.Objects[k]` reads the Go
map's zero value when the key is absent). -/
def metaFor (b : bucketState) (bucket k : String) : ObjectMeta :=
  match lookupA b.objects k with
  | some r => ⟨bucket, k, r.size, r.etag, r.modTime, r.path⟩
  | none => ⟨bucket, k, 0, "", "", ""⟩

/-- Model of `Store.ListObjectsV2`: filter keys by prefix, sort ascending, advance
past the continuation token, truncate to the clamped page size. -/
def listObjectsV2 (s : Store) (bucket pfx token : String) (maxKeys : Int) :
    Except StoreErr (List ObjectMeta × String × Bool) :=
  match lookupA s.state.buckets bucket with
  | none => .error .notFound
  | some b =>
    let mk := effectiveMaxKeys maxKeys
    let keys1 := sortStrings ((b.objects.map Prod.fst).filter (fun k => strStartsWith k pfx))
    let start := if token = "" then 0 else startIdx keys1 token
    let keys2 := keys1.drop start
    if mk < keys2.length then
      .ok ((keys2.take mk).map (metaFor b bucket), keys2.getD (mk - 1) "", true)
    else
      .ok (keys2.map (metaFor b bucket), "", false)

/-! ## SigV4 verifier (`internal/s3/sigv4.go`)

The HTTP request is modelled with its method, authority, escaped path, raw
query, parsed query (`url.ParseQuery(u.RawQuery)`, given as data since the
code only consumes the parsed form), headers under their canonical MIME keys
(as `net/http.Header` stores them), and body bytes. -/

structure Request where
  method : String
  host : String
  path : String
  escapedPath : String
  rawQuery : String
  query : List (String × List String)
  headers : List (String × List String)
  body : List Nat

/-- Header-name token characters accepted by `http.CanonicalHeaderKey`
(RFC 7230 tokens): alphanumerics and one of `!#$%&'*+-.^_` + backquote + `|~`. -/
def isTokenChar (c : Char) : Bool :=
  c.isAlphanum || "!#$%&*+-.^_|~".toList.contains c ||
    c = Char.ofNat 39 || c = Char.ofNat 96

/-- Case canonicalisation: upper-case at the start and after each `-`,
lower-case elsewhere. -/
def canonChars : Bool → List Char → List Char
  | _, [] => []
  | up, c :: rest =>
    (if up then asciiUpper c else asciiLower c) :: canonChars (c = '-') rest

/-- Model of `http.CanonicalHeaderKey`: invalid or empty names are returned as-is. -/
def canonicalHeaderKey (s : String) : String :=
  if s.data.isEmpty || !(s.data.all isTokenChar) then s
  else String.mk (canonChars true s.data)

/-- Model of `r.Header.Values(key)` (nil slice when absent). -/
def headerValues (r : Request) (k : String) : List String :=
  (lookupA r.headers (canonicalHeaderKey k)).getD []

/-- Model of `r.Header.Get(key)`: first value or the empty string. -/
def headerGet (r : Request) (k : String) : String :=
  match headerValues r k with
  | [] => ""
  | v :: _ => v

/-- Model of `strings.SplitN(p, "=", 2)`: `none` when `p` has no `=`. -/
def splitN2Eq (p : String) : Option (String × String) :=
  match splitCh '=' p.data with
  | [_] => none
  | k :: rest => some (String.mk k, joinSep "=" (rest.map String.mk))
  | [] => none

/-- Model of `parseAuthFields`: comma-separated `k=v` pairs into a map, pairs without
`=` skipped, later pairs overwriting earlier ones. -/
def parseAuthFields (s : String) : List (String × String) :=
  (strSplit ',' s).foldl
    (fun m p =>
      match splitN2Eq (strTrim p) with
      | none => m
      | some (k, v) => insertA m k v)
    []

/-- Go map read with the zero-value default. -/
def getField (m : List (String × String)) (k : String) : String :=
  (lookupA m k).getD ""

/-- Model of `encodePath`: empty becomes `/`, a missing leading `/` is added. -/
def encodePath (p : String) : String :=
  if p = "" then "/" else if strStartsWith p "/" then p else "/" ++ p

/-- Bytes that `url.QueryEscape` leaves unescaped: `[A-Za-z0-9._~-]`. -/
def isUnreservedByte (b : Nat) : Bool :=
  (65 ≤ b && b ≤ 90) || (97 ≤ b && b ≤ 122) || (48 ≤ b && b ≤ 57) ||
    b = 45 || b = 95 || b = 46 || b = 126

/-- Model of `url.QueryEscape`: space to `+`, unreserved bytes kept, the rest
percent-encoded with upper-case hex. -/
def queryEscape (s : String) : String :=
  String.mk ((strBytes s).flatMap (fun b =>
    if isUnreservedByte b then [Char.ofNat b]
    else if b = 32 then ['+']
    else ['%', hexDigitUp (b / 16), hexDigitUp (b % 16)]))

/-- Model of `strings.ReplaceAll(s, "+", "%20")` (single-byte pattern). -/
def replPlus (l : List Char) : List Char :=
  l.flatMap (fun c => if c = '+' then ['%', '2', '0'] else [c])

/-- Model of `strings.ReplaceAll(s, "*", "%2A")` (single-byte pattern). -/
def replStar (l : List Char) : List Char :=
  l.flatMap (fun c => if c = '*' then ['%', '2', 'A'] else [c])

/-- Model of `strings.ReplaceAll(s, "%7E", "~")`: left-to-right, non-overlapping. -/
def replTilde : List Char → List Char
  | [] => []
  | '%' :: '7' :: 'E' :: rest => '~' :: replTilde rest
  | c :: rest => c :: replTilde rest

/-- Model of `awsEncode`: query escaping followed by the AWS fix-ups. -/
def awsEncode (s : String) : String :=
  String.mk (replTilde (replStar (replPlus (queryEscape s).data)))

/-- Order on encoded query pairs used by `canonicalQuery`'s sort: by encoded
key, ties broken by encoded value. -/
def qpLE (a b : String × String) : Prop :=
  strLt a.1 b.1 = true ∨ (a.1 = b.1 ∧ strLe a.2 b.2 = true)

instance : DecidableRel qpLE := fun a b =>
  inferInstanceAs (Decidable (strLt a.1 b.1 = true ∨ (a.1 = b.1 ∧ strLe a.2 b.2 = true)))

/-- Model of `canonicalQuery`: empty raw query gives the empty string; otherwise each
key/value is AWS-encoded (values sorted per key first), all pairs sorted by
encoded key then encoded value, and joined as `k=v&…`. -/
def canonicalQuery (r : Request) : String :=
  if r.rawQuery = "" then ""
  else
    let pairs := r.query.flatMap (fun kv =>
      (sortStrings kv.2).map (fun v => (awsEncode kv.1, awsEncode v)))
    joinSep "&" ((List.insertionSort qpLE pairs).map (fun p => p.1 ++ "=" ++ p.2))

/-- Model of `canonicalRequest`: method, canonical URI, canonical query, canonical
headers (lower-cased signed names, sorted; values joined by `,` with
whitespace runs collapsed; `host` taken from the request authority), the
signed-header list, and the payload hash. -/
def canonicalRequest (r : Request) (signedHeaders payloadHash : String) : String :=
  let hdrs := sortStrings (strSplit ';' (asciiLowerStr signedHeaders))
  let canonHeaders := concatAll (hdrs.map (fun k =>
    let v0 := if k = "host" then r.host else joinSep "," (headerValues r k)
    k ++ ":" ++ joinSep " " (goFields v0) ++ "\n"))
  r.method ++ "\n" ++ encodePath r.escapedPath ++ "\n" ++ canonicalQuery r ++ "\n" ++
    canonHeaders ++ "\n" ++ joinSep ";" hdrs ++ "\n" ++ payloadHash

structure AuthResult where
  accessKey : String
  bucket : String
  readOnly : Bool
deriving DecidableEq

/-- The chained HMAC key derivation:
`HMAC("AWS4"+secret, date) → region → service → "aws4_request"`. -/
def signingKey (C : Crypto) (secret date region service : String) : List Nat :=
  let kDate := C.hmacSHA256 (strBytes ("AWS4" ++ secret)) (strBytes date)
  let kRegion := C.hmacSHA256 kDate (strBytes region)
  let kService := C.hmacSHA256 kRegion (strBytes service)
  C.hmacSHA256 kService (strBytes "aws4_request")

/-- The string to sign:
`AWS4-HMAC-SHA256\n<amzDate>\n<scope>\nhex(SHA256(canonicalRequest))`. -/
def stringToSign (C : Crypto) (amzDate date region service canonReq : String) : String :=
  "AWS4-HMAC-SHA256\n" ++ amzDate ++ "\n" ++
    (date ++ "/" ++ region ++ "/" ++ service ++ "/aws4_request") ++ "\n" ++
    hexEncode (C.sha256 (strBytes canonReq))

/-- The `Authorization` header of the request. -/
def authHeader (r : Request) : String := headerGet r "Authorization"

/-- The parsed fields of the authorization header after the
`AWS4-HMAC-SHA256 ` scheme (17 bytes) is stripped. -/
def authFields (r : Request) : List (String × String) :=
  parseAuthFields (strDrop (authHeader r) 17)

def credOf (r : Request) : String := getField (authFields r) "Credential"

def signedHeadersOf (r : Request) : String := getField (authFields r) "SignedHeaders"

def signatureOf (r : Request) : String := getField (authFields r) "Signature"

/-- The credential split at `/`:
`<accessKey>/<date>/<region>/<service>/aws4_request`. -/
def credParts (r : Request) : List String := strSplit '/' (credOf r)

def accessKeyOf (r : Request) : String := (credParts r).getD 0 ""

def dateOf (r : Request) : String := (credParts r).getD 1 ""

def regionOf (r : Request) : String := (credParts r).getD 2 ""

def serviceOf (r : Request) : String := (credParts r).getD 3 ""

/-- The payload hash: `X-Amz-Content-Sha256`, or the literal
`UNSIGNED-PAYLOAD` when that header is absent. -/
def payloadHashOf (r : Request) : String :=
  if headerGet r "X-Amz-Content-Sha256" = "" then "UNSIGNED-PAYLOAD"
  else headerGet r "X-Amz-Content-Sha256"

/-- The signature the verifier expects:
`hex(HMAC(signingKey, stringToSign))` over the canonical request. -/
def expectedSig (C : Crypto) (r : Request) (secret : String) : String :=
  hexEncode (C.hmacSHA256 (signingKey C secret (dateOf r) (regionOf r) (serviceOf r))
    (strBytes (stringToSign C (headerGet r "X-Amz-Date") (dateOf r) (regionOf r)
      (serviceOf r) (canonicalRequest r (signedHeadersOf r) (payloadHashOf r)))))

/-- Model of `VerifySigV4`.  The credentials resolver returns
(secret, bucket, readOnly) or fails.  The constant-time byte comparison of
the signature is equality of the two strings. -/
def verifySigV4 (C : Crypto) (r : Request)
    (resolver : String → Option (String × String × Bool)) : Except String AuthResult :=
  if strStartsWith (authHeader r) "AWS4-HMAC-SHA256 " = false then .error "missing auth"
  else if credOf r = "" ∨ signedHeadersOf r = "" ∨ signatureOf r = "" then
    .error "malformed auth"
  else if (credParts r).length = 5 then
    if serviceOf r = "s3" then
      if headerGet r "X-Amz-Date" = "" then .error "missing x-amz-date"
      else
        match resolver (accessKeyOf r) with
        | none => .error "invalid access key"
        | some (secret, bucket, readOnly) =>
          if expectedSig C r secret = signatureOf r then .ok ⟨accessKeyOf r, bucket, readOnly⟩
          else .error "signature mismatch"
    else .error "service must be s3"
  else .error "bad credential scope"

/-! ## Cluster (`internal/cluster/cluster.go`) and S3 handler
(`internal/s3/handler.go`)

Peer HTTP responses are modelled by `peerResp : Nat → Option Nat` (the status
code of peer `i`, or `none` for a transport error), and the outcome of the
health probes behind `Leader()` by `leaderOrdinal`.  `proxyResult` is the
leader's reply when a mutation is proxied (`none`: transport error). -/

structure Response where
  status : Nat
  code : String
deriving DecidableEq

structure ClusterM where
  replicas : Nat
  ordinal : Nat
  peerResp : Nat → Option Nat
  leaderOrdinal : Nat
  proxyResult : Option Response

/-- Model of `Cluster.Enabled`: replica count above one. -/
def clusterEnabled (c : ClusterM) : Bool := 1 < c.replicas

/-- The ack tally of `Cluster.Replicate`: self counts as one, plus every
non-self peer whose response status is 2xx. -/
def ackCount (c : ClusterM) : Nat :=
  1 + ((List.range c.replicas).filter (fun i =>
    !(i == c.ordinal) &&
      match c.peerResp i with
      | some st => 200 ≤ st && st < 300
      | none => false)).length

/-- The majority requirement `(Replicas / 2) + 1`. -/
def requiredAcks (c : ClusterM) : Nat := c.replicas / 2 + 1

/-- Model of `Cluster.Replicate`: a no-op when the cluster is disabled, otherwise a
quorum error exactly when the tally falls short. -/
def replicate (c : ClusterM) : Except String Unit :=
  if clusterEnabled c = false then .ok ()
  else if ackCount c < requiredAcks c then .error "replication quorum not reached"
  else .ok ()

/-- Model of `Cluster.IsInternalReplication`: the marker header equals `"true"`. -/
def isInternalReplication (r : Request) : Bool :=
  headerGet r "X-PXOBJ-Internal-Replication" == "true"

/-- Model of `splitPath`: strip one leading `/`, first segment is the bucket, the
rest (rejoined) the key. -/
def splitPath (p : String) : String × String :=
  let q := if strStartsWith p "/" then strDrop p 1 else p
  if q = "" then ("", "")
  else
    match splitCh '/' q.data with
    | [bkt] => (String.mk bkt, "")
    | bkt :: rest => (String.mk bkt, joinSep "/" (rest.map String.mk))
    | [] => ("", "")

/-- Model of `isMutatingS3`: PUT or DELETE against a named bucket. -/
def isMutatingS3 (method bucket : String) : Bool :=
  (method == "PUT" || method == "DELETE") && !(bucket == "")

/-- Model of `Handler.shouldProxyToLeader`. -/
def shouldProxyToLeader (cl : Option ClusterM) (r : Request) (bucket : String) : Bool :=
  match cl with
  | none => false
  | some c =>
    if clusterEnabled c = false || isInternalReplication r then false
    else if isMutatingS3 r.method bucket = false then false
    else !(c.leaderOrdinal == c.ordinal)

/-- Model of `url.Values.Get`: first value of the key or the empty string. -/
def qGet (q : List (String × List String)) (k : String) : String :=
  match lookupA q k with
  | some (v :: _) => v
  | _ => ""

/-- Decimal digits to a number (`none` on empty or non-digit input). -/
def digitsVal : List Char → Option Nat
  | [] => none
  | l => l.foldl (fun acc c =>
      match acc with
      | none => none
      | some n => if 48 ≤ c.toNat && c.toNat ≤ 57 then some (n * 10 + (c.toNat - 48)) else none)
      (some 0)

/-- Model of `strconv.Atoi`: optional sign followed by digits. -/
def goAtoi (s : String) : Option Int :=
  match s.data with
  | '+' :: rest => (digitsVal rest).map Int.ofNat
  | '-' :: rest => (digitsVal rest).map (fun n => -(n : Int))
  | l => (digitsVal l).map Int.ofNat

/-- The handler's max-keys computation: default 1000, overridden by a
parseable `max-keys` query parameter. -/
def handlerMaxKeys (q : List (String × List String)) : Int :=
  match qGet q "max-keys" with
  | "" => 1000
  | mk =>
    match goAtoi mk with
    | some v => v
    | none => 1000

/-- After a successful local mutation: replicate when clustered, mapping a
quorum failure to 503 and success to the given status. -/
def afterReplicate (cl : Option ClusterM) (s : Store) (okStatus : Nat) (ops : List String) :
    Response × Store × List String :=
  match cl with
  | some c =>
    if clusterEnabled c then
      match replicate c with
      | .error _ => (⟨503, "InternalError"⟩, s, ops)
      | .ok _ => (⟨okStatus, ""⟩, s, ops)
    else (⟨okStatus, ""⟩, s, ops)
  | none => (⟨okStatus, ""⟩, s, ops)

/-- Model of `Handler.listBuckets` (read-only; the XML body is not modelled). -/
def hListBuckets (s : Store) : Response × Store × List String :=
  (⟨200, ""⟩, s, ["ListBuckets"])

/-- Model of `Handler.createBucket`: any store error surfaces as 400
`InvalidBucketName`; then replicate. -/
def hCreateBucket (cl : Option ClusterM) (s : Store) (bucket now : String)
    (persistOk : Bool) : Response × Store × List String :=
  match (createBucket s bucket now persistOk).1 with
  | .error _ => (⟨400, "InvalidBucketName"⟩, (createBucket s bucket now persistOk).2,
      ["CreateBucket"])
  | .ok _ => afterReplicate cl (createBucket s bucket now persistOk).2 200 ["CreateBucket"]

/-- Model of `Handler.deleteBucket`: `ErrNotFound` is 404 `NoSuchBucket`, any other
store error is 409 `BucketNotEmpty`; then replicate. -/
def hDeleteBucket (cl : Option ClusterM) (s : Store) (bucket : String)
    (persistOk : Bool) : Response × Store × List String :=
  match (deleteBucket s bucket persistOk).1 with
  | .error e =>
    if e = .notFound then (⟨404, "NoSuchBucket"⟩, (deleteBucket s bucket persistOk).2,
      ["DeleteBucket"])
    else (⟨409, "BucketNotEmpty"⟩, (deleteBucket s bucket persistOk).2, ["DeleteBucket"])
  | .ok _ => afterReplicate cl (deleteBucket s bucket persistOk).2 204 ["DeleteBucket"]

/-- Model of `Handler.listObjectsV2`: any store error is 500 `InternalError`. -/
def hListObjects (s : Store) (bucket : String) (q : List (String × List String)) :
    Response × Store × List String :=
  match listObjectsV2 s bucket (qGet q "prefix") (qGet q "continuation-token")
      (handlerMaxKeys q) with
  | .error _ => (⟨500, "InternalError"⟩, s, ["ListObjectsV2"])
  | .ok _ => (⟨200, ""⟩, s, ["ListObjectsV2"])

/-- Model of `Handler.putObject`: the request body is buffered and stored;
`ErrNotFound` is 404 `NoSuchBucket`, other store errors 500; then replicate. -/
def hPutObject (C : Crypto) (cl : Option ClusterM) (s : Store) (bucket key : String)
    (body : List Nat) (id now : String) (persistOk : Bool) :
    Response × Store × List String :=
  match (putObject C s bucket key (.complete body) id now persistOk).res with
  | .error e =>
    if e = .notFound then
      (⟨404, "NoSuchBucket"⟩, (putObject C s bucket key (.complete body) id now persistOk).store,
        ["PutObject"])
    else
      (⟨500, "InternalError"⟩, (putObject C s bucket key (.complete body) id now persistOk).store,
        ["PutObject"])
  | .ok _ =>
    afterReplicate cl (putObject C s bucket key (.complete body) id now persistOk).store 200
      ["PutObject"]

/-- Model of `Handler.getObject`: `ErrNotFound` is 404 `NoSuchKey`. -/
def hGetObject (s : Store) (bucket key : String) : Response × Store × List String :=
  match openObject s bucket key with
  | .error _ => (⟨404, "NoSuchKey"⟩, s, ["OpenObject"])
  | .ok _ => (⟨200, ""⟩, s, ["OpenObject"])

/-- Model of `Handler.headObject`. -/
def hHeadObject (s : Store) (bucket key : String) : Response × Store × List String :=
  match getObjectMeta s bucket key with
  | .error _ => (⟨404, "NoSuchKey"⟩, s, ["GetObjectMeta"])
  | .ok _ => (⟨200, ""⟩, s, ["GetObjectMeta"])

/-- Model of `Handler.deleteObject`: only a non-`ErrNotFound` error is 500; otherwise
replicate and reply 204. -/
def hDeleteObject (cl : Option ClusterM) (s : Store) (bucket key : String)
    (persistOk : Bool) : Response × Store × List String :=
  match (deleteObject s bucket key persistOk).1 with
  | .error e =>
    if e = .notFound then afterReplicate cl (deleteObject s bucket key persistOk).2 204
      ["DeleteObject"]
    else (⟨500, "InternalError"⟩, (deleteObject s bucket key persistOk).2, ["DeleteObject"])
  | .ok _ => afterReplicate cl (deleteObject s bucket key persistOk).2 204 ["DeleteObject"]

/-- The method/path switch of `Handler.ServeHTTP` (after authentication,
scope checks and leader routing). -/
def routeS3 (C : Crypto) (r : Request) (cl : Option ClusterM) (s : Store)
    (id now : String) (persistOk : Bool) (bucket key : String) :
    Response × Store × List String :=
  if r.method = "GET" ∧ bucket = "" ∧ key = "" then hListBuckets s
  else if r.method = "PUT" ∧ bucket ≠ "" ∧ key = "" then hCreateBucket cl s bucket now persistOk
  else if r.method = "DELETE" ∧ bucket ≠ "" ∧ key = "" then hDeleteBucket cl s bucket persistOk
  else if r.method = "GET" ∧ bucket ≠ "" ∧ key = "" ∧ qGet r.query "list-type" = "2" then
    hListObjects s bucket r.query
  else if r.method = "PUT" ∧ bucket ≠ "" ∧ key ≠ "" then
    hPutObject C cl s bucket key r.body id now persistOk
  else if r.method = "GET" ∧ bucket ≠ "" ∧ key ≠ "" then hGetObject s bucket key
  else if r.method = "HEAD" ∧ bucket ≠ "" ∧ key ≠ "" then hHeadObject s bucket key
  else if r.method = "DELETE" ∧ bucket ≠ "" ∧ key ≠ "" then hDeleteObject cl s bucket key persistOk
  else (⟨501, "NotImplemented"⟩, s, [])

/-- Model of `Handler.ServeHTTP`: verify SigV4 (failure: 403 `AccessDenied`), reject a
bucket outside the credential scope, reject mutating methods on read-only
credentials, proxy mutations to the leader when not leader, then route.  The
third component lists the store operations invoked. -/
def serveHTTP (C : Crypto) (r : Request)
    (resolver : String → Option (String × String × Bool)) (cl : Option ClusterM)
    (s : Store) (id now : String) (persistOk : Bool) :
    Response × Store × List String :=
  match verifySigV4 C r resolver with
  | .error _ => (⟨403, "AccessDenied"⟩, s, [])
  | .ok auth =>
    let bucket := (splitPath r.path).1
    let key := (splitPath r.path).2
    if bucket ≠ "" ∧ auth.bucket ≠ bucket then (⟨403, "AccessDenied"⟩, s, [])
    else if auth.readOnly = true ∧ (r.method = "PUT" ∨ r.method = "POST" ∨ r.method = "DELETE")
    then (⟨403, "AccessDenied"⟩, s, [])
    else if shouldProxyToLeader cl r bucket then
      match cl with
      | some c =>
        match c.proxyResult with
        | some resp => (resp, s, [])
        | none => (⟨503, "InternalError"⟩, s, [])
      | none => (⟨503, "InternalError"⟩, s, [])
    else routeS3 C r cl s id now persistOk bucket key

/-- A three-object bucket used to exercise the listing pagination on
concrete input. -/
def lov2Bucket : bucketState :=
  ⟨"t0", [("a", ⟨1, "ea", "ta", "pa"⟩), ("b", ⟨2, "eb", "tb", "pb"⟩),
    ("c", ⟨3, "ec", "tc", "pc"⟩)], []⟩

def lov2Store : Store := ⟨⟨[("abc", lov2Bucket)]⟩, []⟩

def lov2Page : List ObjectMeta :=
  [⟨"abc", "a", 1, "ea", "ta", "pa"⟩, ⟨"abc", "b", 2, "eb", "tb", "pb"⟩]

/-- A request signed over an arbitrarily old credential-scope date
(`19700101`) and a contradicting `X-Amz-Date` far in the future. -/
def c10Req : Request :=
  { method := "GET", host := "h:9000", path := "/", escapedPath := "/", rawQuery := "",
    query := [],
    headers :=
      [("Authorization",
        ["AWS4-HMAC-SHA256 Credential=AK/19700101/r1/s3/aws4_request, SignedHeaders=host;x-amz-date, Signature=00"]),
       ("X-Amz-Date", ["20991231T000000Z"])],
    body := [] }

/-- The resolver of a credential bound read-write to bucket `b1`. -/
def resvB1 : String → Option (String × String × Bool) :=
  fun ak => if ak = "AK" then some ("sec", "b1", false) else none

/-- The resolver of a credential bound read-write to bucket `abc`. -/
def resvAbc : String → Option (String × String × Bool) :=
  fun ak => if ak = "AK" then some ("sec", "abc", false) else none

/-- A request for an object in bucket `b2` (outside the `b1` scope). -/
def c5Req : Request := { c10Req with path := "/b2/k" }

/-- A PUT of `/abc/k`. -/
def c3Req : Request := { c10Req with method := "PUT", path := "/abc/k" }

/-- A three-replica cluster (self ordinal 0, leader self) with both peers
unreachable. -/
def cluNoAck : ClusterM := ⟨3, 0, fun _ => none, 0, none⟩

/-- A three-replica cluster with exactly one peer acknowledging (status 200). -/
def cluOneAck : ClusterM := ⟨3, 0, fun i => if i = 1 then some 200 else none, 0, none⟩

/-! ## Theorems -/

theorem listLtCh_irrefl : ∀ l : List Char, listLtCh l l = false := by
  intro l
  induction l with
  | nil => rfl
  | cons c t ih => simp [listLtCh, ih]

theorem listLtCh_asymm : ∀ {a b : List Char}, listLtCh a b = true → listLtCh b a = false := by
  intro a
  induction a with
  | nil => intro b h; cases b <;> simp_all [listLtCh]
  | cons x xs ih =>
    intro b h
    cases b with
    | nil => simp_all [listLtCh]
    | cons y ys =>
      simp only [listLtCh] at h ⊢
      rcases lt_trichotomy x y with hxy | hxy | hxy
      · simp [hxy, lt_asymm hxy]
      · subst hxy
        simp only [lt_self_iff_false, if_false] at h ⊢
        exact ih h
      · simp [hxy, lt_asymm hxy] at h

theorem listLtCh_trans :
    ∀ {a b c : List Char}, listLtCh a b = true → listLtCh b c = true → listLtCh a c = true := by
  intro a
  induction a with
  | nil =>
    intro b c h1 h2
    cases b with
    | nil => simp_all [listLtCh]
    | cons y ys => cases c <;> simp_all [listLtCh]
  | cons x xs ih =>
    intro b c h1 h2
    cases b with
    | nil => simp_all [listLtCh]
    | cons y ys =>
      cases c with
      | nil => simp_all [listLtCh]
      | cons z zs =>
        simp only [listLtCh] at h1 h2 ⊢
        rcases lt_trichotomy x y with hxy | hxy | hxy
        · rcases lt_trichotomy y z with hyz | hyz | hyz
          · simp [lt_trans hxy hyz]
          · subst hyz; simp [hxy]
          · simp [hyz, lt_asymm hyz] at h2
        · subst hxy
          simp only [lt_self_iff_false, if_false] at h1
          rcases lt_trichotomy x z with hyz | hyz | hyz
          · simp [hyz]
          · subst hyz
            simp only [lt_self_iff_false, if_false] at h2 ⊢
            exact ih h1 h2
          · simp [hyz, lt_asymm hyz] at h2
        · simp [hxy, lt_asymm hxy] at h1

theorem listLtCh_eq_of_not_lt :
    ∀ {a b : List Char}, listLtCh a b = false → listLtCh b a = false → a = b := by
  intro a
  induction a with
  | nil => intro b h1 _; cases b <;> simp_all [listLtCh]
  | cons x xs ih =>
    intro b h1 h2
    cases b with
    | nil => simp_all [listLtCh]
    | cons y ys =>
      simp only [listLtCh] at h1 h2
      rcases lt_trichotomy x y with hxy | hxy | hxy
      · simp [hxy] at h1
      · subst hxy
        simp only [lt_self_iff_false, if_false] at h1 h2
        exact congrArg (x :: ·) (ih h1 h2)
      · simp [hxy, lt_asymm hxy] at h2

theorem str_eq_of_data_eq {a b : String} (h : a.data = b.data) : a = b := by
  cases a; cases b; exact congrArg String.mk h

theorem strLt_asymm {a b : String} (h : strLt a b = true) : strLt b a = false :=
  listLtCh_asymm h

theorem strLt_trans {a b c : String} (h1 : strLt a b = true) (h2 : strLt b c = true) :
    strLt a c = true :=
  listLtCh_trans h1 h2

theorem str_eq_of_not_lt {a b : String} (h1 : strLt a b = false) (h2 : strLt b a = false) :
    a = b :=
  str_eq_of_data_eq (listLtCh_eq_of_not_lt h1 h2)

theorem strLe_iff_not_lt {a b : String} : strLe a b = true ↔ strLt b a = false := by
  simp [strLe]

theorem strLe_refl (a : String) : strLe a a = true := by
  simp [strLe, strLt, listLtCh_irrefl]

theorem strLe_of_lt {a b : String} (h : strLt a b = true) : strLe a b = true :=
  strLe_iff_not_lt.mpr (strLt_asymm h)

theorem strLt_of_lt_of_le {a b c : String} (h1 : strLt a b = true) (h2 : strLe b c = true) :
    strLt a c = true := by
  rcases hca : strLt c a with hf | ht
  · rcases hac : strLt a c with h | h
    · exact absurd (str_eq_of_not_lt hac hca ▸ h1) (by simpa using strLe_iff_not_lt.mp h2)
    · rfl
  · exact absurd (strLt_trans hca h1) (by simpa using strLe_iff_not_lt.mp h2)

theorem strLt_of_le_of_lt {a b c : String} (h1 : strLe a b = true) (h2 : strLt b c = true) :
    strLt a c = true := by
  rcases hca : strLt c a with hf | ht
  · rcases hac : strLt a c with h | h
    · exact absurd (str_eq_of_not_lt hac hca ▸ h2) (by simpa using strLe_iff_not_lt.mp h1)
    · rfl
  · exact absurd (strLt_trans h2 hca) (by simpa using strLe_iff_not_lt.mp h1)

@[instance] theorem sLE_isTotal : IsTotal String sLE := by
  constructor
  intro a b
  rcases h1 : strLt b a with hf | ht
  · exact Or.inl (strLe_iff_not_lt.mpr h1)
  · exact Or.inr (strLe_iff_not_lt.mpr (strLt_asymm h1))

@[instance] theorem sLE_isTrans : IsTrans String sLE := by
  constructor
  intro a b c h1 h2
  rcases hca : strLt c a with hf | ht
  · exact strLe_iff_not_lt.mpr hca
  · exfalso
    have h1' := strLe_iff_not_lt.mp h1
    have h2' := strLe_iff_not_lt.mp h2
    rcases hbc : strLt b c with hf2 | ht2
    · have hb : b = c := str_eq_of_not_lt hbc h2'
      rw [hb] at h1'
      rw [h1'] at hca
      exact Bool.false_ne_true hca
    · have hba := strLt_trans hbc hca
      rw [h1'] at hba
      exact Bool.false_ne_true hba

theorem sLT_of_sLE_ne {a b : String} (h1 : sLE a b) (h2 : a ≠ b) : sLT a b := by
  rcases hab : strLt a b with hf | ht
  · exact absurd (str_eq_of_not_lt hab (strLe_iff_not_lt.mp h1)) h2
  · exact hab

theorem lookupA_insertA_self {α : Type} (m : List (String × α)) (k : String) (v : α) :
    lookupA (insertA m k v) k = some v := by
  induction m with
  | nil => simp [insertA, lookupA]
  | cons e t ih =>
    by_cases h : e.1 = k
    · simp [insertA, h, lookupA]
    · simpa [insertA, h, lookupA] using ih

theorem lookupA_insertA_ne {α : Type} (m : List (String × α)) {k k' : String} (v : α)
    (h : k' ≠ k) : lookupA (insertA m k v) k' = lookupA m k' := by
  have hkk : k ≠ k' := fun hh => h hh.symm
  induction m with
  | nil => simp [insertA, lookupA, hkk]
  | cons e t ih =>
    by_cases he : e.1 = k
    · have he' : e.1 ≠ k' := by rw [he]; exact hkk
      simp [insertA, he, lookupA, hkk, he']
    · simp only [insertA, he, if_false]
      by_cases he' : e.1 = k'
      · simp [lookupA, he']
      · simpa [lookupA, he'] using ih

theorem lookupA_eraseA_ne {α : Type} (m : List (String × α)) {k k' : String}
    (h : k' ≠ k) : lookupA (eraseA m k) k' = lookupA m k' := by
  induction m with
  | nil => simp [eraseA, lookupA]
  | cons e t ih =>
    by_cases he : e.1 = k
    · have he' : e.1 ≠ k' := by rw [he]; exact fun hh => h hh.symm
      have hp : (decide (e.1 ≠ k)) = false := by simp [he]
      rw [eraseA, List.filter_cons, hp]
      simp only [Bool.false_eq_true, if_false]
      rw [show lookupA (e :: t) k' = lookupA t k' by simp [lookupA, he']]
      exact ih
    · have hp : (decide (e.1 ≠ k)) = true := by simp [he]
      rw [eraseA, List.filter_cons, hp]
      simp only [if_true]
      by_cases he' : e.1 = k'
      · simp [lookupA, he']
      · rw [show lookupA (e :: t) k' = lookupA t k' by simp [lookupA, he']]
        rw [show lookupA (e :: t.filter (fun e => decide (e.1 ≠ k))) k' =
              lookupA (t.filter (fun e => decide (e.1 ≠ k))) k' by simp [lookupA, he']]
        exact ih

theorem lookupA_isSome_iff_mem {α : Type} (m : List (String × α)) (k : String) :
    (lookupA m k).isSome = true ↔ k ∈ m.map Prod.fst := by
  induction m with
  | nil => simp [lookupA]
  | cons e t ih =>
    by_cases he : e.1 = k
    · simp [lookupA, he]
    · have hek : ¬k = e.1 := fun hh => he hh.symm
      simp [lookupA, he, hek, ih]

/-! ## The store (`internal/objectd/store.go`)

The store owns an in-memory metadata snapshot (`metaState`) and the content
files under its data directory.  Disk writes that the code treats as
infallible housekeeping (`os.MkdirAll`, directory removal) are modelled as
succeeding; the metadata rename performed by `persistLocked` is modelled by
the explicit `persistOk` flag so that failures after the in-memory mutation
are observable.  The random content-file name (`randomHex 24`) and the
current time are passed in as parameters `id` and `now`. -/

theorem insertA_of_lookupA_none {α : Type} (m : List (String × α)) {k : String} (v : α)
    (h : lookupA m k = none) : insertA m k v = m ++ [(k, v)] := by
  induction m with
  | nil => simp [insertA]
  | cons e t ih =>
    by_cases he : e.1 = k
    · simp [lookupA, he] at h
    · simp only [lookupA, he, if_false] at h
      simp [insertA, he, ih h]

theorem countKey_eq_zero {α : Type} (m : List (String × α)) {k : String}
    (h : lookupA m k = none) : countKey m k = 0 := by
  induction m with
  | nil => simp [countKey]
  | cons e t ih =>
    by_cases he : e.1 = k
    · simp [lookupA, he] at h
    · simp only [lookupA, he, if_false] at h
      simpa [countKey, List.filter, he] using ih h

theorem countKey_eq_one {α : Type} (m : List (String × α)) {k : String} {v : α}
    (hnd : nodupKeys m) (h : lookupA m k = some v) : countKey m k = 1 := by
  induction m with
  | nil => simp [lookupA] at h
  | cons e t ih =>
    have hnd' : nodupKeys t := (List.nodup_cons.mp hnd).2
    by_cases he : e.1 = k
    · have hnot : k ∉ t.map Prod.fst := he ▸ (List.nodup_cons.mp hnd).1
      have hnone : lookupA t k = none := by
        rcases hl : lookupA t k with h0 | v'
        · rfl
        · exact absurd ((lookupA_isSome_iff_mem t k).mp (by simp [hl])) hnot
      simpa [countKey, List.filter, he] using countKey_eq_zero t hnone
    · simp only [lookupA, he, if_false] at h
      simpa [countKey, List.filter, he] using ih hnd' h

theorem sorted_sortStrings (l : List String) : List.Sorted sLE (sortStrings l) :=
  List.sorted_insertionSort sLE l

theorem perm_sortStrings (l : List String) : (sortStrings l).Perm l :=
  List.perm_insertionSort sLE l

theorem pairwise_sLT_of_sorted_nodup {l : List String} (hs : List.Sorted sLE l)
    (hnd : l.Nodup) : List.Pairwise sLT l :=
  (hs.and hnd).imp (fun h => sLT_of_sLE_ne h.1 h.2)

theorem startIdxAux_all_gt (t : String) :
    ∀ (l : List String) (i st : Nat), (∀ x ∈ l, strLe x t = false) →
      startIdxAux t i st l = st := by
  intro l
  induction l with
  | nil => intro i st _; rfl
  | cons k rest ih =>
    intro i st hall
    have hk : strLe k t = false := hall k (by simp)
    rw [startIdxAux, hk]
    simp only [Bool.false_eq_true, if_false]
    exact ih (i + 1) st (fun x hx => hall x (by simp [hx]))

theorem startIdxAux_sorted (t : String) :
    ∀ (l : List String), List.Sorted sLE l → ∀ (i st : Nat),
      startIdxAux t i st l =
        if (l.takeWhile (fun k => strLe k t)).length = 0 then st
        else i + (l.takeWhile (fun k => strLe k t)).length := by
  intro l
  induction l with
  | nil => intro _ i st; simp [startIdxAux]
  | cons k rest ih =>
    intro hs i st
    have hrest : List.Sorted sLE rest := hs.of_cons
    have hall : ∀ x ∈ rest, sLE k x := List.rel_of_sorted_cons hs
    rcases hk : strLe k t with hf | ht
    · have hgt : ∀ x ∈ rest, strLe x t = false := by
        intro x hx
        have hkx : strLe k x = true := hall x hx
        have htk : strLt t k = true := by
          have := congrArg (fun z => !z) hk
          simpa [strLe] using this
        have h1 : strLt t x = true := strLt_of_lt_of_le htk hkx
        simp [strLe, h1]
      rw [startIdxAux, hk]
      simp only [Bool.false_eq_true, if_false]
      rw [startIdxAux_all_gt t rest (i + 1) st hgt]
      simp [List.takeWhile_cons, hk]
    · rw [startIdxAux, hk]
      simp only [if_true]
      rw [ih hrest (i + 1) (i + 1)]
      simp only [List.takeWhile_cons, hk, if_true, List.length_cons]
      rcases Nat.eq_zero_or_pos (rest.takeWhile (fun k => strLe k t)).length with h0 | hpos
      · simp [h0]
      · rw [if_neg (by omega), if_neg (by omega)]
        omega

theorem startIdx_sorted {l : List String} (t : String) (hs : List.Sorted sLE l) :
    startIdx l t = (l.takeWhile (fun k => strLe k t)).length := by
  rw [startIdx, startIdxAux_sorted t l hs 0 0]
  rcases Nat.eq_zero_or_pos (l.takeWhile (fun k => strLe k t)).length with h0 | hpos
  · simp [h0]
  · rw [if_neg (by omega), Nat.zero_add]

theorem drop_length_takeWhile {α : Type} (p : α → Bool) :
    ∀ l : List α, l.drop (l.takeWhile p).length = l.dropWhile p := by
  intro l
  induction l with
  | nil => rfl
  | cons a t ih =>
    rcases hp : p a with hf | ht
    · simp [List.takeWhile_cons, List.dropWhile_cons, hp]
    · simpa [List.takeWhile_cons, List.dropWhile_cons, hp] using ih

theorem dropWhile_sorted_eq_filter (t : String) :
    ∀ {l : List String}, List.Sorted sLE l →
      l.dropWhile (fun k => strLe k t) = l.filter (fun k => strLt t k) := by
  intro l
  induction l with
  | nil => intro _; rfl
  | cons k rest ih =>
    intro hs
    have hrest : List.Sorted sLE rest := hs.of_cons
    have hall : ∀ x ∈ rest, sLE k x := List.rel_of_sorted_cons hs
    rcases hk : strLe k t with hf | ht
    · have htk : strLt t k = true := by
        have := congrArg (fun z => !z) hk
        simpa [strLe] using this
      rw [List.dropWhile_cons]
      simp only [hk, Bool.false_eq_true, if_false]
      rw [List.filter_cons, if_pos htk]
      refine congrArg (k :: ·) ?_
      refine ((List.filter_eq_self.mpr ?_).symm)
      intro x hx
      exact strLt_of_lt_of_le htk (hall x hx)
    · have htk : strLt t k = false := by
        have := congrArg (fun z => !z) hk
        simpa [strLe] using this
      rw [List.dropWhile_cons]
      simp only [hk, if_true]
      rw [List.filter_cons, if_neg (by simp [htk])]
      exact ih hrest

theorem drop_startIdx {l : List String} (t : String) (hs : List.Sorted sLE l) :
    l.drop (startIdx l t) = l.filter (fun k => strLt t k) := by
  rw [startIdx_sorted t hs, drop_length_takeWhile, dropWhile_sorted_eq_filter t hs]

theorem metaFor_key (b : bucketState) (bucket k : String) : (metaFor b bucket k).key = k := by
  rcases h : lookupA b.objects k with _ | r <;> simp [metaFor, h]

theorem map_key_metaFor (b : bucketState) (bucket : String) (ks : List String) :
    (ks.map (metaFor b bucket)).map ObjectMeta.key = ks := by
  induction ks with
  | nil => rfl
  | cons k t ih => simp [metaFor_key, ih]

theorem putObject_complete_res (C : Crypto) (s : Store) {bkt : String} {b : bucketState}
    {k : String} (v : List Nat) (id now : String)
    (hb : lookupA s.state.buckets bkt = some b) (hk : ¬k = "") :
    (putObject C s bkt k (.complete v) id now true).res =
      .ok ⟨bkt, k, v.length, hexEncode (C.sha256 v), now, objPath bkt id⟩ := by
  rcases hprev : lookupA b.objects k with _ | prev
  · simp [putObject, hb, hk, hprev]
  · by_cases hp : prev.path = objPath bkt id <;> simp [putObject, hb, hk, hprev, hp]

theorem putObject_complete_state (C : Crypto) (s : Store) {bkt : String} {b : bucketState}
    {k : String} (v : List Nat) (id now : String) (persistOk : Bool)
    (hb : lookupA s.state.buckets bkt = some b) (hk : ¬k = "") :
    (putObject C s bkt k (.complete v) id now persistOk).store.state.buckets =
      insertA s.state.buckets bkt
        (bucketState.mk b.createdAt
          (insertA b.objects k
            (objectRecord.mk v.length (hexEncode (C.sha256 v)) now (objPath bkt id)))
          b.access) := by
  rcases hprev : lookupA b.objects k with _ | prev
  · cases persistOk <;> simp [putObject, hb, hk, hprev]
  · by_cases hp : prev.path = objPath bkt id <;> cases persistOk <;>
      simp [putObject, hb, hk, hprev, hp]

theorem putObject_complete_files (C : Crypto) (s : Store) {bkt : String} {b : bucketState}
    {k : String} (v : List Nat) (id now : String) (persistOk : Bool)
    (hb : lookupA s.state.buckets bkt = some b) (hk : ¬k = "") :
    lookupA (putObject C s bkt k (.complete v) id now persistOk).store.files
      (objPath bkt id) = some v := by
  rcases hprev : lookupA b.objects k with _ | prev
  · cases persistOk <;> simp [putObject, hb, hk, hprev, lookupA_insertA_self]
  · by_cases hp : prev.path = objPath bkt id <;> cases persistOk <;>
      simp only [putObject, hb, hk, hprev, hp, if_pos, if_neg, Bool.false_eq_true,
        if_false, if_true, not_false_eq_true] <;>
      first
        | exact lookupA_insertA_self _ _ _
        | · rw [lookupA_eraseA_ne _ (fun hh => hp hh.symm)]
            exact lookupA_insertA_self _ _ _

/-- C2: for every existing bucket, non-empty key and payload, `PutObject`
succeeds with size = byte count and etag = lower-case hex SHA-256 of the
payload; `GetObjectMeta` then returns the same size and etag, and the stored
content file holds exactly the payload bytes. -/
theorem putObject_roundtrip (C : Crypto) (s : Store) (bkt : String) (b : bucketState)
    (k : String) (v : List Nat) (id now : String)
    (hb : lookupA s.state.buckets bkt = some b) (hk : ¬k = "") :
    (putObject C s bkt k (.complete v) id now true).res =
      .ok ⟨bkt, k, v.length, hexEncode (C.sha256 v), now, objPath bkt id⟩ ∧
    getObjectMeta (putObject C s bkt k (.complete v) id now true).store bkt k =
      .ok ⟨bkt, k, v.length, hexEncode (C.sha256 v), now, objPath bkt id⟩ ∧
    lookupA (putObject C s bkt k (.complete v) id now true).store.files
      (objPath bkt id) = some v := by
  refine ⟨putObject_complete_res C s v id now hb hk, ?_,
    putObject_complete_files C s v id now true hb hk⟩
  have hst := putObject_complete_state C s v id now true hb hk
  simp [getObjectMeta, hst, lookupA_insertA_self]

theorem putObject_roundtrip_witness :
    (putObject ⟨fun _ => [1], fun _ _ => [2]⟩ ⟨⟨[("abc", ⟨"t0", [], []⟩)]⟩, []⟩
        "abc" "k" (.complete [9]) "id0" "t1" true).res =
      .ok ⟨"abc", "k", 1, hexEncode [1], "t1", objPath "abc" "id0"⟩ ∧
    getObjectMeta (putObject ⟨fun _ => [1], fun _ _ => [2]⟩ ⟨⟨[("abc", ⟨"t0", [], []⟩)]⟩, []⟩
        "abc" "k" (.complete [9]) "id0" "t1" true).store "abc" "k" =
      .ok ⟨"abc", "k", 1, hexEncode [1], "t1", objPath "abc" "id0"⟩ ∧
    lookupA (putObject ⟨fun _ => [1], fun _ _ => [2]⟩ ⟨⟨[("abc", ⟨"t0", [], []⟩)]⟩, []⟩
        "abc" "k" (.complete [9]) "id0" "t1" true).store.files (objPath "abc" "id0") =
      some [9] :=
  putObject_roundtrip ⟨fun _ => [1], fun _ _ => [2]⟩ ⟨⟨[("abc", ⟨"t0", [], []⟩)]⟩, []⟩
    "abc" ⟨"t0", [], []⟩ "k" [9] "id0" "t1" rfl (by decide)

/-- C4: the code unlinks the superseded content file BEFORE `persistLocked`
renames the metadata, not after.  With a failing rename, the previous content
file is already gone although no metadata rename ever succeeded (no
`persisted` event); on the success path the `removed` event likewise precedes
`persisted` in program order. -/
theorem putObject_unlink_order_bug :
    (putObject ⟨fun _ => [1], fun _ _ => [2]⟩
        ⟨⟨[("abc", ⟨"t0", [("k", ⟨1, "e", "t0", "objects/abc/old"⟩)], []⟩)]⟩,
          [("objects/abc/old", [7])]⟩
        "abc" "k" (.complete [5, 6]) "newid" "t1" false).events =
      [.created "objects/abc/newid", .removed "objects/abc/old"] ∧
    (putObject ⟨fun _ => [1], fun _ _ => [2]⟩
        ⟨⟨[("abc", ⟨"t0", [("k", ⟨1, "e", "t0", "objects/abc/old"⟩)], []⟩)]⟩,
          [("objects/abc/old", [7])]⟩
        "abc" "k" (.complete [5, 6]) "newid" "t1" false).res = .error .persistErr ∧
    lookupA (putObject ⟨fun _ => [1], fun _ _ => [2]⟩
        ⟨⟨[("abc", ⟨"t0", [("k", ⟨1, "e", "t0", "objects/abc/old"⟩)], []⟩)]⟩,
          [("objects/abc/old", [7])]⟩
        "abc" "k" (.complete [5, 6]) "newid" "t1" false).store.files "objects/abc/old" =
      none ∧
    (putObject ⟨fun _ => [1], fun _ _ => [2]⟩
        ⟨⟨[("abc", ⟨"t0", [("k", ⟨1, "e", "t0", "objects/abc/old"⟩)], []⟩)]⟩,
          [("objects/abc/old", [7])]⟩
        "abc" "k" (.complete [5, 6]) "newid" "t1" true).events =
      [.created "objects/abc/newid", .removed "objects/abc/old", .persisted] :=
  ⟨rfl, rfl, rfl, rfl⟩

/-- C8: `CreateBucket` twice succeeds both times, the second call is a
complete no-op (any later clock value, even a failing persist, returns the
state after the first call unchanged), and exactly one bucket of that name
exists afterwards. -/
theorem createBucket_idempotent (s : Store) (name now now' : String) (pOk' : Bool)
    (hnd : nodupKeys s.state.buckets) (hv : validBucket name = true) :
    (createBucket s name now true).1 = .ok () ∧
    createBucket (createBucket s name now true).2 name now' pOk' =
      (.ok (), (createBucket s name now true).2) ∧
    countKey (createBucket s name now true).2.state.buckets name = 1 := by
  rcases hl : lookupA s.state.buckets name with _ | b
  · have e1 : createBucket s name now true =
        (.ok (), ⟨⟨insertA s.state.buckets name ⟨now, [], []⟩⟩, s.files⟩) := by
      simp [createBucket, hv, hl]
    rw [e1]
    have hl2 : lookupA (insertA s.state.buckets name (⟨now, [], []⟩ : bucketState)) name =
        some ⟨now, [], []⟩ := lookupA_insertA_self _ _ _
    refine ⟨rfl, ?_, ?_⟩
    · show createBucket ⟨⟨insertA s.state.buckets name ⟨now, [], []⟩⟩, s.files⟩ name now' pOk' =
        (.ok (), ⟨⟨insertA s.state.buckets name ⟨now, [], []⟩⟩, s.files⟩)
      simp [createBucket, hv, hl2]
    · show countKey (insertA s.state.buckets name ⟨now, [], []⟩) name = 1
      rw [insertA_of_lookupA_none _ _ hl]
      have h0 := countKey_eq_zero s.state.buckets hl
      simp only [countKey, List.filter_append, List.length_append] at h0 ⊢
      simp [h0, List.filter]
  · have hsame : (createBucket s name now true).2 = s := by simp [createBucket, hv, hl]
    refine ⟨by simp [createBucket, hv, hl], ?_, ?_⟩
    · rw [hsame]; simp [createBucket, hv, hl]
    · rw [hsame]; exact countKey_eq_one _ hnd hl

theorem createBucket_idempotent_witness :
    (createBucket ⟨⟨[]⟩, []⟩ "abc" "t0" true).1 = .ok () ∧
    createBucket (createBucket ⟨⟨[]⟩, []⟩ "abc" "t0" true).2 "abc" "t1" false =
      (.ok (), (createBucket ⟨⟨[]⟩, []⟩ "abc" "t0" true).2) ∧
    countKey (createBucket ⟨⟨[]⟩, []⟩ "abc" "t0" true).2.state.buckets "abc" = 1 :=
  createBucket_idempotent ⟨⟨[]⟩, []⟩ "abc" "t0" "t1" false (by simp [nodupKeys]) (by decide)

/-- C9: the enumerated failing store mutations return their error with the
in-memory metadata untouched: invalid bucket name on create, missing or
non-empty bucket on delete, missing bucket / empty key / copy or close
failure on put, and missing bucket on `PutAccess`. -/
theorem store_error_preserves_state (C : Crypto) (s : Store) (bn now k id : String)
    (body : Body) (pOk : Bool) (a : AccessKey) :
    (validBucket bn = false → createBucket s bn now pOk = (.error .invalidBucketName, s)) ∧
    (lookupA s.state.buckets bn = none → deleteBucket s bn pOk = (.error .notFound, s)) ∧
    (∀ b, lookupA s.state.buckets bn = some b → 0 < b.objects.length →
      deleteBucket s bn pOk = (.error .bucketNotEmpty, s)) ∧
    (lookupA s.state.buckets bn = none →
      putObject C s bn k body id now pOk = ⟨.error .notFound, s, []⟩) ∧
    (∀ b, lookupA s.state.buckets bn = some b →
      putObject C s bn "" body id now pOk = ⟨.error .emptyKey, s, []⟩) ∧
    (∀ w, (putObject C s bn k (.copyFail w) id now pOk).store.state = s.state ∧
      ∃ e, (putObject C s bn k (.copyFail w) id now pOk).res = .error e) ∧
    (∀ w, (putObject C s bn k (.closeFail w) id now pOk).store.state = s.state ∧
      ∃ e, (putObject C s bn k (.closeFail w) id now pOk).res = .error e) ∧
    (lookupA s.state.buckets a.bucket = none → putAccess s a pOk = (.error .notFound, s)) := by
  refine ⟨?_, ?_, ?_, ?_, ?_, ?_, ?_, ?_⟩
  · intro h; simp [createBucket, h]
  · intro h; simp [deleteBucket, h]
  · intro b hb hlen; simp [deleteBucket, hb, hlen]
  · intro h; simp [putObject, h]
  · intro b hb; simp [putObject, hb]
  · intro w
    rcases hl : lookupA s.state.buckets bn with _ | b
    · simp [putObject, hl]
    · by_cases hk : k = "" <;> simp [putObject, hl, hk]
  · intro w
    rcases hl : lookupA s.state.buckets bn with _ | b
    · simp [putObject, hl]
    · by_cases hk : k = "" <;> simp [putObject, hl, hk]
  · intro h; simp [putAccess, putAccessLocked, h]

theorem store_error_preserves_state_witness :
    createBucket ⟨⟨[]⟩, []⟩ "-x" "t" true = (.error .invalidBucketName, ⟨⟨[]⟩, []⟩) ∧
    deleteBucket ⟨⟨[]⟩, []⟩ "abc" true = (.error .notFound, ⟨⟨[]⟩, []⟩) ∧
    putObject ⟨fun _ => [], fun _ _ => []⟩ ⟨⟨[]⟩, []⟩ "abc" "k" (.complete []) "i" "t" true =
      ⟨.error .notFound, ⟨⟨[]⟩, []⟩, []⟩ ∧
    (putObject ⟨fun _ => [], fun _ _ => []⟩ ⟨⟨[]⟩, []⟩ "abc" "k" (.copyFail [1]) "i" "t"
        true).store.state = (⟨⟨[]⟩, []⟩ : Store).state ∧
    putAccess ⟨⟨[]⟩, []⟩ ⟨"AK", "SK", "abc", false⟩ true =
      (.error .notFound, ⟨⟨[]⟩, []⟩) :=
  ⟨(store_error_preserves_state ⟨fun _ => [], fun _ _ => []⟩ ⟨⟨[]⟩, []⟩ "-x" "t" "k" "i"
      (.complete []) true ⟨"AK", "SK", "abc", false⟩).1 (by decide),
   (store_error_preserves_state ⟨fun _ => [], fun _ _ => []⟩ ⟨⟨[]⟩, []⟩ "abc" "t" "k" "i"
      (.complete []) true ⟨"AK", "SK", "abc", false⟩).2.1 rfl,
   (store_error_preserves_state ⟨fun _ => [], fun _ _ => []⟩ ⟨⟨[]⟩, []⟩ "abc" "t" "k" "i"
      (.complete []) true ⟨"AK", "SK", "abc", false⟩).2.2.2.1 rfl,
   ((store_error_preserves_state ⟨fun _ => [], fun _ _ => []⟩ ⟨⟨[]⟩, []⟩ "abc" "t" "k" "i"
      (.complete []) true ⟨"AK", "SK", "abc", false⟩).2.2.2.2.2.1 [1]).1,
   (store_error_preserves_state ⟨fun _ => [], fun _ _ => []⟩ ⟨⟨[]⟩, []⟩ "abc" "t" "k" "i"
      (.complete []) true ⟨"AK", "SK", "abc", false⟩).2.2.2.2.2.2.2 rfl⟩

/-- C6: for an existing bucket (hypotheses: the Go map has distinct keys and
max-keys is in range), `ListObjectsV2` returns a page of keys that all match
the prefix and lie strictly beyond a non-empty continuation token, in
strictly ascending byte order, at most max-keys of them; an untruncated
reply carries every matching key and an empty next token, a truncated reply
is exactly max-keys long with next equal to the page's last (largest) key
and every matching key left out strictly beyond it; and the reply is
truncated exactly when some matching key remains beyond the page (so when
the matches fit the page — even exactly — truncated is false). -/
theorem listObjectsV2_spec (s : Store) (bkt pfx token : String) (maxKeys : Int)
    (b : bucketState) (page : List ObjectMeta) (next : String) (trunc : Bool)
    (hb : lookupA s.state.buckets bkt = some b) (hnd : nodupKeys b.objects)
    (h1 : 1 ≤ maxKeys) (h2 : maxKeys ≤ 1000)
    (hres : listObjectsV2 s bkt pfx token maxKeys = .ok (page, next, trunc)) :
    List.Pairwise sLT (page.map ObjectMeta.key) ∧
    (∀ m ∈ page, strStartsWith m.key pfx = true ∧ (token ≠ "" → strLt token m.key = true) ∧
      m.key ∈ b.objects.map Prod.fst) ∧
    page.length ≤ maxKeys.toNat ∧
    (trunc = false → next = "" ∧
      ∀ kk, kk ∈ b.objects.map Prod.fst → strStartsWith kk pfx = true →
        (token ≠ "" → strLt token kk = true) → kk ∈ page.map ObjectMeta.key) ∧
    (trunc = true → page.length = maxKeys.toNat ∧ next ∈ page.map ObjectMeta.key ∧
      (∀ m ∈ page, strLe m.key next = true) ∧
      (∀ kk, kk ∈ b.objects.map Prod.fst → strStartsWith kk pfx = true →
        (token ≠ "" → strLt token kk = true) → kk ∉ page.map ObjectMeta.key →
        strLt next kk = true)) ∧
    (trunc = true ↔ ∃ kk, kk ∈ b.objects.map Prod.fst ∧ strStartsWith kk pfx = true ∧
      (token ≠ "" → strLt token kk = true) ∧ kk ∉ page.map ObjectMeta.key) := by
  have hmk : effectiveMaxKeys maxKeys = maxKeys.toNat := by
    rw [effectiveMaxKeys, if_neg (by omega)]
  have hmk1 : 1 ≤ maxKeys.toNat := by omega
  simp only [listObjectsV2, hb] at hres
  set L1 : List String :=
    sortStrings ((b.objects.map Prod.fst).filter (fun kk => strStartsWith kk pfx)) with hL1
  set st : Nat := if token = "" then 0 else startIdx L1 token with hst
  set L2 : List String := L1.drop st with hL2
  -- basic facts about the sorted filtered key list
  have hsor : List.Sorted sLE L1 := sorted_sortStrings _
  have hperm := perm_sortStrings ((b.objects.map Prod.fst).filter (fun kk => strStartsWith kk pfx))
  have hnd1 : L1.Nodup := hperm.nodup_iff.mpr (List.Nodup.filter _ hnd)
  have hP1 : List.Pairwise sLT L1 := pairwise_sLT_of_sorted_nodup hsor hnd1
  have hP2 : List.Pairwise sLT L2 := List.Pairwise.sublist (List.drop_sublist st L1) hP1
  have hmem1 : ∀ kk, kk ∈ L1 ↔ kk ∈ b.objects.map Prod.fst ∧ strStartsWith kk pfx = true := by
    intro kk
    rw [hperm.mem_iff, List.mem_filter]
  have hmem2 : ∀ kk, kk ∈ L2 ↔ kk ∈ L1 ∧ (token ≠ "" → strLt token kk = true) := by
    intro kk
    by_cases htok : token = ""
    · subst htok
      simp only [hL2, hst, if_pos rfl, List.drop_zero]
      simp
    · have : L2 = L1.filter (fun k => strLt token k) := by
        rw [hL2, hst, if_neg htok, drop_startIdx token hsor]
      rw [this, List.mem_filter]
      simp [htok]
  rw [hmk] at hres
  by_cases hcut : maxKeys.toNat < L2.length
  · rw [if_pos hcut] at hres
    simp only [Except.ok.injEq, Prod.mk.injEq] at hres
    obtain ⟨hpage, hnext, htrunc⟩ := hres
    subst hpage hnext htrunc
    have hkeys : ((L2.take maxKeys.toNat).map (metaFor b bkt)).map ObjectMeta.key =
        L2.take maxKeys.toNat := map_key_metaFor b bkt _
    have hlen2 : maxKeys.toNat - 1 < L2.length := by omega
    have hgetD : L2.getD (maxKeys.toNat - 1) "" = L2[maxKeys.toNat - 1] := by
      simp [List.getD, List.getElem?_eq_getElem hlen2]
    have hlenTake : (L2.take maxKeys.toNat).length = maxKeys.toNat := by
      simp [List.length_take]
      omega
    have hsub : ∀ kk, kk ∈ L2.take maxKeys.toNat → kk ∈ L2 :=
      fun kk hk => (List.take_sublist _ _).mem hk
    refine ⟨?_, ?_, ?_, ?_, ?_, ?_⟩
    · rw [hkeys]
      exact List.Pairwise.sublist (List.take_sublist _ _) hP2
    · intro m hm
      obtain ⟨kk, hkk, hmk2⟩ := List.mem_map.mp hm
      have hkkL2 : kk ∈ L2 := hsub kk hkk
      have h3 := (hmem1 kk).mp ((hmem2 kk).mp hkkL2).1
      have h4 := ((hmem2 kk).mp hkkL2).2
      have hkey : m.key = kk := by rw [← hmk2, metaFor_key]
      exact ⟨hkey ▸ h3.2, hkey ▸ h4, hkey ▸ h3.1⟩
    · rw [List.length_map, hlenTake]
    · intro hf; cases hf
    · intro _
      refine ⟨?_, ?_, ?_, ?_⟩
      · rw [List.length_map, hlenTake]
      · rw [hkeys, hgetD]
        have hb1 : maxKeys.toNat - 1 < (L2.take maxKeys.toNat).length := by
          rw [hlenTake]; omega
        have h5 : (L2.take maxKeys.toNat)[maxKeys.toNat - 1] = L2[maxKeys.toNat - 1] :=
          List.getElem_take _
        rw [← h5]
        exact List.getElem_mem hb1
      · intro m hm
        obtain ⟨kk, hkk, hmk2⟩ := List.mem_map.mp hm
        obtain ⟨i, hi, hik⟩ := List.mem_iff_getElem.mp hkk
        have hkey : m.key = kk := by rw [← hmk2, metaFor_key]
        have hi2 : i < maxKeys.toNat := by rw [hlenTake] at hi; exact hi
        have hiL2 : i < L2.length := by omega
        have hikL2 : L2[i] = kk := (List.getElem_take L2).symm.trans hik
        rw [hkey, hgetD, ← hikL2]
        rcases Nat.lt_or_ge i (maxKeys.toNat - 1) with hlt | hge
        · exact strLe_of_lt ((List.pairwise_iff_getElem.mp hP2) i (maxKeys.toNat - 1)
            (by omega) (by omega) hlt)
        · have hieq : i = maxKeys.toNat - 1 := by omega
          subst hieq
          exact strLe_refl _
      · intro kk hkk1 hkk2 hkk3 hnot
        have hkkL2 : kk ∈ L2 := (hmem2 kk).mpr ⟨(hmem1 kk).mpr ⟨hkk1, hkk2⟩, hkk3⟩
        obtain ⟨j, hj, hjk⟩ := List.mem_iff_getElem.mp hkkL2
        have hjge : maxKeys.toNat ≤ j := by
          by_contra hjlt
          push_neg at hjlt
          apply hnot
          rw [hkeys]
          have hb2 : j < (L2.take maxKeys.toNat).length := by rw [hlenTake]; omega
          have h5 : (L2.take maxKeys.toNat)[j] = L2[j] := List.getElem_take _
          rw [← hjk, ← h5]
          exact List.getElem_mem hb2
        rw [hgetD, ← hjk]
        exact (List.pairwise_iff_getElem.mp hP2) (maxKeys.toNat - 1) j (by omega) (by omega)
          (by omega)
    · constructor
      · intro _
        refine ⟨L2[maxKeys.toNat], ?_, ?_, ?_, ?_⟩
        · exact ((hmem1 _).mp ((hmem2 _).mp (List.getElem_mem hcut)).1).1
        · exact ((hmem1 _).mp ((hmem2 _).mp (List.getElem_mem hcut)).1).2
        · exact ((hmem2 _).mp (List.getElem_mem hcut)).2
        · rw [hkeys]
          intro hmem
          obtain ⟨i, hi, hik⟩ := List.mem_iff_getElem.mp hmem
          have hi2 : i < maxKeys.toNat := by rw [hlenTake] at hi; exact hi
          have hiL2 : i < L2.length := by omega
          have hikL2 : L2[i] = L2[maxKeys.toNat] := (List.getElem_take L2).symm.trans hik
          have hlt := (List.pairwise_iff_getElem.mp hP2) i maxKeys.toNat hiL2 hcut hi2
          rw [hikL2] at hlt
          have hirr : strLt L2[maxKeys.toNat] L2[maxKeys.toNat] = false := listLtCh_irrefl _
          exact absurd hlt (by simp [sLT, hirr])
      · intro _
        rfl
  · rw [if_neg hcut] at hres
    simp only [Except.ok.injEq, Prod.mk.injEq] at hres
    obtain ⟨hpage, hnext, htrunc⟩ := hres
    subst hpage hnext htrunc
    have hkeys : (L2.map (metaFor b bkt)).map ObjectMeta.key = L2 := map_key_metaFor b bkt _
    refine ⟨?_, ?_, ?_, ?_, ?_, ?_⟩
    · rw [hkeys]; exact hP2
    · intro m hm
      obtain ⟨kk, hkk, hmk2⟩ := List.mem_map.mp hm
      have h3 := (hmem1 kk).mp ((hmem2 kk).mp hkk).1
      have h4 := ((hmem2 kk).mp hkk).2
      have hkey : m.key = kk := by rw [← hmk2, metaFor_key]
      exact ⟨hkey ▸ h3.2, hkey ▸ h4, hkey ▸ h3.1⟩
    · rw [List.length_map]; omega
    · intro _
      refine ⟨rfl, ?_⟩
      intro kk hkk1 hkk2 hkk3
      rw [hkeys]
      exact (hmem2 kk).mpr ⟨(hmem1 kk).mpr ⟨hkk1, hkk2⟩, hkk3⟩
    · intro hf; cases hf
    · constructor
      · intro hf; cases hf
      · rintro ⟨kk, hk1, hk2, hk3, hk4⟩
        exact absurd (by
          rw [hkeys]
          exact (hmem2 kk).mpr ⟨(hmem1 kk).mpr ⟨hk1, hk2⟩, hk3⟩) hk4

theorem listObjectsV2_spec_witness :
    List.Pairwise sLT (lov2Page.map ObjectMeta.key) ∧
    (∀ m ∈ lov2Page, strStartsWith m.key "" = true ∧ ("" ≠ "" → strLt "" m.key = true) ∧
      m.key ∈ lov2Bucket.objects.map Prod.fst) ∧
    lov2Page.length ≤ (2 : Int).toNat ∧
    (true = false → "b" = "" ∧
      ∀ kk, kk ∈ lov2Bucket.objects.map Prod.fst → strStartsWith kk "" = true →
        ("" ≠ "" → strLt "" kk = true) → kk ∈ lov2Page.map ObjectMeta.key) ∧
    (true = true → lov2Page.length = (2 : Int).toNat ∧ "b" ∈ lov2Page.map ObjectMeta.key ∧
      (∀ m ∈ lov2Page, strLe m.key "b" = true) ∧
      (∀ kk, kk ∈ lov2Bucket.objects.map Prod.fst → strStartsWith kk "" = true →
        ("" ≠ "" → strLt "" kk = true) → kk ∉ lov2Page.map ObjectMeta.key →
        strLt "b" kk = true)) ∧
    (true = true ↔ ∃ kk, kk ∈ lov2Bucket.objects.map Prod.fst ∧ strStartsWith kk "" = true ∧
      ("" ≠ "" → strLt "" kk = true) ∧ kk ∉ lov2Page.map ObjectMeta.key) :=
  listObjectsV2_spec lov2Store "abc" "" "" 2 lov2Bucket lov2Page "b" true rfl
    (by unfold nodupKeys; decide) (by decide) (by decide) rfl

/-- C7 counterexample: `max-keys = 0` is NOT clamped to 1.  The code resets
any out-of-range value to the default 1000, so listing a three-object bucket
with `max-keys = 0` returns all three keys in one untruncated page. -/
theorem effectiveMaxKeys_zero_counterexample :
    listObjectsV2 lov2Store "abc" "" "" 0 =
      .ok ([⟨"abc", "a", 1, "ea", "ta", "pa"⟩, ⟨"abc", "b", 2, "eb", "tb", "pb"⟩,
        ⟨"abc", "c", 3, "ec", "tc", "pc"⟩], "", false) ∧
    effectiveMaxKeys 0 = 1000 ∧ ¬effectiveMaxKeys 0 = 1 :=
  ⟨rfl, rfl, by decide⟩

/-- C7 (amended): the effective page cap equals the requested max-keys when
that lies in [1, 1000]; any value ≤ 0 or > 1000 behaves exactly like the
default 1000 (there is no clamp to 1), and the handler's default when the
query parameter is absent is 1000. -/
theorem effectiveMaxKeys_amended (s : Store) (bkt pfx token : String) (mk : Int) :
    ((mk ≤ 0 ∨ 1000 < mk) →
      listObjectsV2 s bkt pfx token mk = listObjectsV2 s bkt pfx token 1000) ∧
    (1 ≤ mk → mk ≤ 1000 → effectiveMaxKeys mk = mk.toNat ∧
      ∀ b page next trunc, lookupA s.state.buckets bkt = some b →
        listObjectsV2 s bkt pfx token mk = .ok (page, next, trunc) →
        page.length ≤ mk.toNat) ∧
    handlerMaxKeys [] = 1000 := by
  refine ⟨?_, ?_, rfl⟩
  · intro hout
    have he : effectiveMaxKeys mk = effectiveMaxKeys 1000 := by
      rw [effectiveMaxKeys, if_pos hout, effectiveMaxKeys, if_neg (by omega)]
      rfl
    simp only [listObjectsV2, he]
  · intro hlo hhi
    have he : effectiveMaxKeys mk = mk.toNat := by
      rw [effectiveMaxKeys, if_neg (by omega)]
    refine ⟨he, ?_⟩
    intro b page next trunc hb hres
    simp only [listObjectsV2, hb, he] at hres
    split at hres
    all_goals split at hres
    all_goals rename_i hcond
    all_goals simp only [Except.ok.injEq, Prod.mk.injEq] at hres
    all_goals obtain ⟨hpage, h2, h3⟩ := hres
    all_goals subst hpage
    all_goals simp only [List.length_map, List.length_take]
    all_goals omega

theorem effectiveMaxKeys_amended_witness :
    listObjectsV2 lov2Store "abc" "" "" (-5) = listObjectsV2 lov2Store "abc" "" "" 1000 ∧
    effectiveMaxKeys 2 = (2 : Int).toNat ∧
    handlerMaxKeys [] = 1000 :=
  ⟨(effectiveMaxKeys_amended lov2Store "abc" "" "" (-5)).1 (by decide),
   ((effectiveMaxKeys_amended lov2Store "abc" "" "" 2).2.1 (by decide) (by decide)).1,
   (effectiveMaxKeys_amended lov2Store "abc" "" "" 2).2.2⟩

theorem verifySigV4_ok_iff_core (C : Crypto) (r : Request)
    (resolver : String → Option (String × String × Bool)) (res : AuthResult) :
    verifySigV4 C r resolver = .ok res ↔
      (strStartsWith (authHeader r) "AWS4-HMAC-SHA256 " = true ∧
       credOf r ≠ "" ∧ signedHeadersOf r ≠ "" ∧ signatureOf r ≠ "" ∧
       (credParts r).length = 5 ∧ serviceOf r = "s3" ∧
       headerGet r "X-Amz-Date" ≠ "" ∧
       res.accessKey = accessKeyOf r ∧
       ∃ secret, resolver (accessKeyOf r) = some (secret, res.bucket, res.readOnly) ∧
         signatureOf r = expectedSig C r secret) := by
  constructor
  · intro h
    by_cases hb1 : strStartsWith (authHeader r) "AWS4-HMAC-SHA256 " = true
    case neg =>
      have hb1f : strStartsWith (authHeader r) "AWS4-HMAC-SHA256 " = false := by
        simpa using hb1
      rw [verifySigV4, if_pos hb1f] at h
      simp at h
    case pos =>
      by_cases h2 : credOf r = "" ∨ signedHeadersOf r = "" ∨ signatureOf r = ""
      · have hv : verifySigV4 C r resolver = .error "malformed auth" := by
          simp [verifySigV4, hb1, h2]
        rw [hv] at h
        simp at h
      · by_cases h3 : (credParts r).length = 5
        · by_cases h4 : serviceOf r = "s3"
          · by_cases h5 : headerGet r "X-Amz-Date" = ""
            · have hv : verifySigV4 C r resolver = .error "missing x-amz-date" := by
                simp [verifySigV4, hb1, h2, h3, h4, h5]
              rw [hv] at h
              simp at h
            · rcases Option.eq_none_or_eq_some (resolver (accessKeyOf r)) with hres | hsome
              · have hv : verifySigV4 C r resolver = .error "invalid access key" := by
                  simp [verifySigV4, hb1, h2, h3, h4, h5, hres]
                rw [hv] at h
                simp at h
              · obtain ⟨⟨secret, bucket, ro⟩, hres⟩ := hsome
                by_cases h6 : expectedSig C r secret = signatureOf r
                · have hv : verifySigV4 C r resolver =
                      .ok ⟨accessKeyOf r, bucket, ro⟩ := by
                    simp [verifySigV4, hb1, h2, h3, h4, h5, hres, h6]
                  rw [hv] at h
                  have hres2 := Except.ok.inj h
                  push_neg at h2
                  refine ⟨hb1, h2.1, h2.2.1, h2.2.2, h3, h4, h5, by rw [← hres2], secret,
                    ?_, h6.symm⟩
                  rw [← hres2]
                  exact hres
                · have hv : verifySigV4 C r resolver = .error "signature mismatch" := by
                    simp [verifySigV4, hb1, h2, h3, h4, h5, hres, h6]
                  rw [hv] at h
                  simp at h
          · have hv : verifySigV4 C r resolver = .error "service must be s3" := by
              simp [verifySigV4, hb1, h2, h3, h4]
            rw [hv] at h
            simp at h
        · have hv : verifySigV4 C r resolver = .error "bad credential scope" := by
            simp [verifySigV4, hb1, h2, h3]
          rw [hv] at h
          simp at h
  · rintro ⟨h1, hc, hs, hg, h3, h4, h5, hak, secret, hres, hsig⟩
    have h2 : ¬(credOf r = "" ∨ signedHeadersOf r = "" ∨ signatureOf r = "") := by
      push_neg
      exact ⟨hc, hs, hg⟩
    obtain ⟨ak, bucket, ro⟩ := res
    simp only [AuthResult.accessKey] at hak
    simp only [AuthResult.bucket, AuthResult.readOnly] at hres
    subst hak
    have h6 : expectedSig C r secret = signatureOf r := hsig.symm
    simp [verifySigV4, h1, h2, h3, h4, h5, hres, h6]

/-- C1: `VerifySigV4` returns the resolved access key, bound bucket and
read-only flag exactly when the authorization header carries the
`AWS4-HMAC-SHA256 ` scheme with non-empty `Credential`, `SignedHeaders` and
`Signature` fields, the credential splits into five components with service
`s3`, `X-Amz-Date` is present, the access key resolves, and the signature
equals `hex(HMAC(signingKey, stringToSign))` over the canonical request
(payload hash from `X-Amz-Content-Sha256`, or `UNSIGNED-PAYLOAD` when that
header is absent); every other input yields a single failure. -/
theorem verifySigV4_accepts_iff (C : Crypto) (r : Request)
    (resolver : String → Option (String × String × Bool)) (res : AuthResult) :
    verifySigV4 C r resolver = .ok res ↔
      (strStartsWith (authHeader r) "AWS4-HMAC-SHA256 " = true ∧
       credOf r ≠ "" ∧ signedHeadersOf r ≠ "" ∧ signatureOf r ≠ "" ∧
       (credParts r).length = 5 ∧ serviceOf r = "s3" ∧
       headerGet r "X-Amz-Date" ≠ "" ∧
       res.accessKey = accessKeyOf r ∧
       ∃ secret, resolver (accessKeyOf r) = some (secret, res.bucket, res.readOnly) ∧
         signatureOf r = expectedSig C r secret) :=
  verifySigV4_ok_iff_core C r resolver res

/-- C10: the verifier never compares `X-Amz-Date` with the credential-scope
date or with a clock: whenever the structural conditions hold and the
signature is computed over the supplied date strings — the scope date and
`X-Amz-Date` are arbitrary, unrelated strings here — verification succeeds. -/
theorem verifySigV4_no_freshness (C : Crypto) (r : Request)
    (resolver : String → Option (String × String × Bool))
    (secret bucket : String) (ro : Bool)
    (h1 : strStartsWith (authHeader r) "AWS4-HMAC-SHA256 " = true)
    (hc : credOf r ≠ "") (hs : signedHeadersOf r ≠ "") (hg : signatureOf r ≠ "")
    (h3 : (credParts r).length = 5) (h4 : serviceOf r = "s3")
    (h5 : headerGet r "X-Amz-Date" ≠ "")
    (hres : resolver (accessKeyOf r) = some (secret, bucket, ro))
    (hsig : signatureOf r = expectedSig C r secret) :
    verifySigV4 C r resolver = .ok ⟨accessKeyOf r, bucket, ro⟩ :=
  (verifySigV4_ok_iff_core C r resolver ⟨accessKeyOf r, bucket, ro⟩).mpr
    ⟨h1, hc, hs, hg, h3, h4, h5, rfl, secret, hres, hsig⟩

theorem verifySigV4_no_freshness_witness :
    verifySigV4 ⟨fun _ => [], fun _ _ => [0]⟩ c10Req
      (fun ak => if ak = "AK" then some ("sec", "b1", false) else none) =
      .ok ⟨accessKeyOf c10Req, "b1", false⟩ :=
  verifySigV4_no_freshness ⟨fun _ => [], fun _ _ => [0]⟩ c10Req
    (fun ak => if ak = "AK" then some ("sec", "b1", false) else none) "sec" "b1" false
    (by decide) (by decide) (by decide) (by decide) (by decide) (by decide) (by decide)
    (by decide) (by decide)

/-- C5: once a request is authenticated, a path naming a bucket different
from the credential's bound bucket — whether or not that bucket exists — and
likewise a PUT/POST/DELETE under a read-only credential, are answered 403
`AccessDenied` with the store untouched and no store operation invoked. -/
theorem serveHTTP_scope_enforcement (C : Crypto) (r : Request)
    (resolver : String → Option (String × String × Bool)) (cl : Option ClusterM)
    (s : Store) (id now : String) (persistOk : Bool) (auth : AuthResult)
    (hAuth : verifySigV4 C r resolver = .ok auth)
    (hcond : ((splitPath r.path).1 ≠ "" ∧ auth.bucket ≠ (splitPath r.path).1) ∨
      (auth.readOnly = true ∧ (r.method = "PUT" ∨ r.method = "POST" ∨ r.method = "DELETE"))) :
    serveHTTP C r resolver cl s id now persistOk = (⟨403, "AccessDenied"⟩, s, []) := by
  rcases hcond with ⟨hb, hne⟩ | ⟨hro, hm⟩
  · simp [serveHTTP, hAuth, hb, hne]
  · by_cases hb2 : (splitPath r.path).1 ≠ "" ∧ auth.bucket ≠ (splitPath r.path).1
    · simp [serveHTTP, hAuth, hb2]
    · rcases hm with hm | hm | hm <;> simp [serveHTTP, hAuth, hb2, hro, hm]

theorem serveHTTP_scope_enforcement_witness :
    serveHTTP ⟨fun _ => [], fun _ _ => [0]⟩ c5Req resvB1 none lov2Store "i" "t" true =
      (⟨403, "AccessDenied"⟩, lov2Store, []) :=
  serveHTTP_scope_enforcement ⟨fun _ => [], fun _ _ => [0]⟩ c5Req resvB1 none lov2Store
    "i" "t" true ⟨"AK", "b1", false⟩ rfl (Or.inl ⟨by decide, by decide⟩)

/-- C3: with the cluster enabled, `Replicate` counts the local node plus each
peer answering 2xx and fails exactly when the tally is below ⌊N/2⌋+1; with
N = 3 and exactly one peer acknowledging the mutation succeeds; and when the
quorum fails on a PUT the handler answers 503 while the local store already
holds the committed object (no rollback). -/
theorem cluster_quorum_spec (c : ClusterM) (C : Crypto) (r : Request)
    (resolver : String → Option (String × String × Bool)) (s : Store)
    (id now : String) (auth : AuthResult) (b : bucketState) :
    (clusterEnabled c = true →
      ((∃ m, replicate c = .error m) ↔ ackCount c < c.replicas / 2 + 1)) ∧
    (c.replicas = 3 → ackCount c = 2 → replicate c = .ok ()) ∧
    (verifySigV4 C r resolver = .ok auth →
      r.method = "PUT" →
      (splitPath r.path).1 ≠ "" → (splitPath r.path).2 ≠ "" →
      auth.bucket = (splitPath r.path).1 → auth.readOnly = false →
      c.leaderOrdinal = c.ordinal →
      clusterEnabled c = true → ackCount c < requiredAcks c →
      lookupA s.state.buckets (splitPath r.path).1 = some b →
      (serveHTTP C r resolver (some c) s id now true).1 = ⟨503, "InternalError"⟩ ∧
      getObjectMeta (serveHTTP C r resolver (some c) s id now true).2.1
          (splitPath r.path).1 (splitPath r.path).2 =
        .ok ⟨(splitPath r.path).1, (splitPath r.path).2, r.body.length,
          hexEncode (C.sha256 r.body), now, objPath (splitPath r.path).1 id⟩) := by
  refine ⟨?_, ?_, ?_⟩
  · intro hen
    by_cases hq : ackCount c < requiredAcks c
    · constructor
      · intro _
        simpa [requiredAcks] using hq
      · intro _
        exact ⟨"replication quorum not reached",
          by rw [replicate, if_neg (by simp [hen]), if_pos hq]⟩
    · constructor
      · rintro ⟨m, hm⟩
        rw [replicate, if_neg (by simp [hen]), if_neg hq] at hm
        simp at hm
      · intro hlt
        exact absurd (show ackCount c < requiredAcks c by simpa [requiredAcks] using hlt) hq
  · intro h3 h2
    have hen : clusterEnabled c = true := by simp [clusterEnabled, h3]
    rw [replicate, if_neg (by simp [hen]), if_neg (by simp [requiredAcks, h3, h2])]
  · intro hAuth hm hbne hkne hab hro hld hen hq hl
    have hrep : replicate c = .error "replication quorum not reached" := by
      rw [replicate, if_neg (by simp [hen]), if_pos hq]
    have hres := putObject_complete_res C s r.body id now hl hkne
    have hst := putObject_complete_state C s r.body id now true hl hkne
    have hsp : shouldProxyToLeader (some c) r (splitPath r.path).1 = false := by
      rcases hI : isInternalReplication r with hf | ht
      · simp [shouldProxyToLeader, hI, hen, isMutatingS3, hm, hbne, hld]
      · simp [shouldProxyToLeader, hI, hen]
    have hserve : serveHTTP C r resolver (some c) s id now true =
        (⟨503, "InternalError"⟩,
          (putObject C s (splitPath r.path).1 (splitPath r.path).2 (.complete r.body)
            id now true).store, ["PutObject"]) := by
      simp [serveHTTP, hAuth, hab, hro, hsp, routeS3, hm, hbne, hkne, hPutObject, hres,
        afterReplicate, hen, hrep]
    rw [hserve]
    refine ⟨rfl, ?_⟩
    simp [getObjectMeta, hst, lookupA_insertA_self]

theorem cluster_quorum_spec_witness :
    ((∃ m, replicate cluNoAck = .error m) ↔
      ackCount cluNoAck < cluNoAck.replicas / 2 + 1) ∧
    replicate cluOneAck = .ok () ∧
    ((serveHTTP ⟨fun _ => [], fun _ _ => [0]⟩ c3Req resvAbc (some cluNoAck) lov2Store
        "i" "t" true).1 = ⟨503, "InternalError"⟩ ∧
      getObjectMeta (serveHTTP ⟨fun _ => [], fun _ _ => [0]⟩ c3Req resvAbc (some cluNoAck)
          lov2Store "i" "t" true).2.1 "abc" "k" =
        .ok ⟨"abc", "k", 0, "", "t", "objects/abc/i"⟩) :=
  ⟨(cluster_quorum_spec cluNoAck ⟨fun _ => [], fun _ _ => [0]⟩ c10Req resvB1 lov2Store
      "i" "t" ⟨"AK", "b1", false⟩ lov2Bucket).1 (by decide),
   (cluster_quorum_spec cluOneAck ⟨fun _ => [], fun _ _ => [0]⟩ c10Req resvB1 lov2Store
      "i" "t" ⟨"AK", "b1", false⟩ lov2Bucket).2.1 rfl (by decide),
   (cluster_quorum_spec cluNoAck ⟨fun _ => [], fun _ _ => [0]⟩ c3Req resvAbc lov2Store
      "i" "t" ⟨"AK", "abc", false⟩ lov2Bucket).2.2 rfl rfl (by decide) (by decide) rfl rfl
      rfl (by decide) (by decide) rfl⟩

end Pxobj
